import Mathlib

/-!
Verification development for the nxpkg package manager.

Rust strings are embedded as `List Char` (`RStr`); filesystem paths as
lists of components.  Each definition mirrors one function of the source
tree (`src/compress.rs`, `src/db/download.rs`, `src/db/mod.rs`,
`src/buildins/meta.rs`, `src/trust.rs`, `src/main.rs`); external effects
(HTTP, SHA-256, Ed25519, base64, gzip) are abstracted as parameters.
-/

namespace Nxpkg

/-! ## Rust string primitives -/

/-- Rust `&str` / `String`, embedded as a list of characters. -/
abbrev RStr := List Char

/-- Rust `char::is_whitespace`, restricted to the ASCII whitespace set. -/
def isWs (c : Char) : Bool := c = ' ' || c = '\t' || c = '\n' || c = '\r'

/-- Right trim: drop trailing whitespace (`str::trim_end`). -/
def trimR (s : RStr) : RStr := (s.reverse.dropWhile isWs).reverse

/-- Rust `str::trim`. -/
def trim (s : RStr) : RStr := trimR (s.dropWhile isWs)

/-- Rust `str::split(c)`: splits at every occurrence, keeping empty segments. -/
def splitOnChar (c : Char) : RStr → List RStr
  | [] => [[]]
  | x :: xs =>
    match splitOnChar c xs with
    | [] => [[]]
    | y :: ys => if x = c then [] :: y :: ys else (x :: y) :: ys

/-- Rust `str::split_once(c)`: splits at the first occurrence. -/
def splitOnceChar (c : Char) : RStr → Option (RStr × RStr)
  | [] => none
  | x :: xs =>
    if x = c then some ([], xs)
    else
      match splitOnceChar c xs with
      | none => none
      | some (a, b) => some (x :: a, b)

/-- Rust `str::starts_with(c)` for a single-char pattern. -/
def startsWithChar (c : Char) : RStr → Bool
  | [] => false
  | x :: _ => x = c

/-- Rust `str::ends_with(c)` for a single-char pattern. -/
def endsWithChar (c : Char) (s : RStr) : Bool := s.getLast? = some c

/-- Strip one trailing carriage return (used by `str::lines`). -/
def stripCr (l : RStr) : RStr := if l.getLast? = some '\r' then l.dropLast else l

/-- Rust `str::lines`: split at `'\n'`, drop a final empty segment, and strip
the `'\r'` of a `"\r\n"` ending from every line that was newline-terminated. -/
def rustLines (s : RStr) : List RStr :=
  match (splitOnChar '\n' s).reverse with
  | [] => []
  | last :: revInit =>
    let init := (revInit.reverse).map stripCr
    if last = [] then init else init ++ [last]

/-- Rust `Vec::join(sep)` over strings. -/
def joinSep (sep : RStr) : List RStr → RStr
  | [] => []
  | [x] => x
  | x :: y :: xs => x ++ sep ++ joinSep sep (y :: xs)

/-- `value.split(c).map(|s| s.trim().to_string()).filter(|s| !s.is_empty())`,
the list-field parser shared by `meta.rs` and `db/mod.rs`. -/
def parseListOn (c : Char) (value : RStr) : List RStr :=
  ((splitOnChar c value).map trim).filter (fun s => !s.isEmpty)

/-! ## Package recipe (`src/buildins/meta.rs`) -/

structure PackageInfo where
  name : RStr
  version : RStr
  architectures : List RStr
deriving DecidableEq, Repr

structure BuildInfo where
  dependencies : List RStr
  commands : List RStr
deriving DecidableEq, Repr

structure InstallInfo where
  installParams : List RStr
  installedFiles : List RStr
deriving DecidableEq, Repr

structure PackageRecipe where
  package : PackageInfo
  build : BuildInfo
  install : InstallInfo
deriving DecidableEq, Repr

/-- `PackageRecipe::default()`. -/
def emptyRecipe : PackageRecipe :=
  { package := { name := [], version := [], architectures := [] }
    build := { dependencies := [], commands := [] }
    install := { installParams := [], installedFiles := [] } }

inductive RecipeErr where
  | missingName
  | missingVersion
deriving DecidableEq, Repr

/-- One iteration of the line loop of `PackageRecipe::from_str`.  The state is
the current section name paired with the recipe being built. -/
def processLine (st : RStr × PackageRecipe) (rawLine : RStr) : RStr × PackageRecipe :=
  let currentSection := st.1
  let recipe := st.2
  let line := trim rawLine
  if line.isEmpty then st
  else if startsWithChar '#' line || startsWithChar ';' line then st
  else if startsWithChar '[' line && endsWithChar ']' line then
    ((line.drop 1).dropLast, recipe)
  else
    match splitOnceChar '=' line with
    | none => st
    | some (k, v) =>
      let key := trim k
      let value := trim v
      if currentSection = "package".toList then
        if key = "name".toList then
          (currentSection, { recipe with package := { recipe.package with name := value } })
        else if key = "version".toList then
          (currentSection, { recipe with package := { recipe.package with version := value } })
        else if key = "architectures".toList then
          (currentSection,
            { recipe with package := { recipe.package with architectures := parseListOn ',' value } })
        else st
      else if currentSection = "build".toList then
        if key = "dependencies".toList then
          (currentSection, { recipe with build := { recipe.build with dependencies := parseListOn ',' value } })
        else if key = "commands".toList then
          (currentSection, { recipe with build := { recipe.build with commands := parseListOn ';' value } })
        else st
      else if currentSection = "install".toList then
        if key = "install_params".toList then
          (currentSection,
            { recipe with install := { recipe.install with installParams := parseListOn ',' value } })
        else st
      else st

/-- `PackageRecipe::from_str`. -/
def PackageRecipe.fromStr (content : RStr) : Except RecipeErr PackageRecipe :=
  let st := (rustLines content).foldl processLine ([], emptyRecipe)
  let recipe := st.2
  if recipe.package.name.isEmpty then .error .missingName
  else if recipe.package.version.isEmpty then .error .missingVersion
  else .ok recipe

/-- The `package.cfg` renderer of `create_nxpkg` (`src/compress.rs`, step 2). -/
def renderCfg (recipe : PackageRecipe) : RStr :=
  "[package]\n".toList
  ++ "name = ".toList ++ recipe.package.name ++ ['\n']
  ++ "version = ".toList ++ recipe.package.version ++ ['\n']
  ++ (if recipe.package.architectures.isEmpty then [] else
      "architectures = ".toList ++ joinSep ", ".toList recipe.package.architectures ++ ['\n'])
  ++ "\n[build]\n".toList
  ++ (if recipe.build.dependencies.isEmpty then [] else
      "dependencies = ".toList ++ joinSep ", ".toList recipe.build.dependencies ++ ['\n'])
  ++ (if recipe.build.commands.isEmpty then [] else
      "commands = ".toList ++ joinSep "; ".toList recipe.build.commands ++ ['\n'])
  ++ "\n[install]\n".toList
  ++ (if recipe.install.installParams.isEmpty then [] else
      "install_params = ".toList ++ joinSep ", ".toList recipe.install.installParams ++ ['\n'])

/-! ## Architecture gate (`extract_nxpkg`, `src/compress.rs`) -/

/-- `fn norm(s: &str) -> String { s.trim().to_lowercase().replace('-', "_") }`. -/
def normToken (s : RStr) : RStr :=
  ((trim s).map Char.toLower).map (fun c => if c = '-' then '_' else c)

/-- The host-alias table of `extract_nxpkg` (match on `std::env::consts::ARCH`). -/
def hostAliases (arch : RStr) : List RStr :=
  if arch = "x86_64".toList then ["x86_64".toList, "amd64".toList, "x64".toList]
  else if arch = "aarch64".toList then ["aarch64".toList, "arm64".toList]
  else if arch = "arm".toList then ["arm".toList, "armv7".toList, "armhf".toList, "armv7l".toList]
  else if arch = "x86".toList || arch = "i686".toList then
    ["x86".toList, "i686".toList, "i386".toList]
  else if arch = "powerpc64".toList || arch = "powerpc64le".toList then
    ["ppc64".toList, "ppc64le".toList]
  else [arch]

/-- Host aliases extended with the universal tokens `any` / `noarch`. -/
def archAliasesFull (arch : RStr) : List RStr :=
  hostAliases arch ++ ["any".toList, "noarch".toList]

/-- The `supports_current_arch` block of `extract_nxpkg`. -/
def supportsCurrentArch (architectures : List RStr) (hostArch : RStr) : Bool :=
  if architectures.isEmpty then true
  else
    let declared := architectures.map normToken
    declared.any (fun d => (archAliasesFull hostArch).any (fun a => a = d))

/-! ## Paths and abstract filesystem (`src/compress.rs`) -/

/-- A component of a Rust `std::path::Path` (`Component`). -/
inductive PathComp where
  | normal (s : String)
  | curDir
  | parentDir
  | rootDir
  | winPref (s : String)
deriving DecidableEq, Repr

/-- An absolute on-disk location, as the list of its normal components
(`[]` is the filesystem root `/`). -/
abbrev AbsPath := List String

/-- Errors of the archive codec (the source uses `String` messages; here each
distinct message is one constructor). -/
inductive UnpackErr where
  | invalidEntryPath
  | emptyEntryPath
  | escapesRoot
  | sessionSymlinkParent (p : AbsPath)
  | onDiskSymlinkParent (p : AbsPath)
  | dirOverSymlink
  | overwriteDirWithFile
  | overwriteDirWithSymlink
  | missingLinkTarget
  | invalidLinkTarget
  | hardLinkRejected
  | specialRejected
  | unsupportedType
  | createDirConflict
deriving DecidableEq, Repr

/-- The component loop of `sanitize_entry_path`: keep `Normal`, skip `CurDir`,
reject everything else. -/
def cleanComps : List PathComp → Except UnpackErr (List String)
  | [] => .ok []
  | .normal s :: rest =>
    match cleanComps rest with
    | .error e => .error e
    | .ok r => .ok (s :: r)
  | .curDir :: rest => cleanComps rest
  | _ :: _ => .error .invalidEntryPath

/-- `sanitize_entry_path` (`src/compress.rs`). -/
def sanitizeEntryPath (path : List PathComp) : Except UnpackErr (List String) :=
  match cleanComps path with
  | .error e => .error e
  | .ok clean => if clean.isEmpty then .error .emptyEntryPath else .ok clean

/-- `validate_link_target`: link targets may not contain `..` or a Windows
prefix (note the source lets `RootDir` pass). -/
def validateLinkTarget : List PathComp → Except UnpackErr Unit
  | [] => .ok ()
  | .parentDir :: _ => .error .invalidLinkTarget
  | .winPref _ :: _ => .error .invalidLinkTarget
  | _ :: rest => validateLinkTarget rest

/-- A filesystem node as seen by `fs::symlink_metadata`. -/
inductive FsNode where
  | dir
  | file
  | symlink (target : List PathComp)
deriving DecidableEq, Repr

/-- The abstract filesystem: a finite map from absolute paths to nodes. -/
abbrev Fs := List (AbsPath × FsNode)

def Fs.lookup (fs : Fs) (p : AbsPath) : Option FsNode :=
  match fs.find? (fun e => e.1 = p) with
  | some e => some e.2
  | none => none

def Fs.setNode (fs : Fs) (p : AbsPath) (n : FsNode) : Fs :=
  (p, n) :: fs.filter (fun e => e.1 != p)

def Fs.removeNode (fs : Fs) (p : AbsPath) : Fs :=
  fs.filter (fun e => e.1 != p)

def isSymlinkNode : Option FsNode → Bool
  | some (.symlink _) => true
  | _ => false

def isDirNode : Option FsNode → Bool
  | some .dir => true
  | _ => false

/-- `Path::strip_prefix` on component lists. -/
def stripPref (root p : AbsPath) : Option AbsPath :=
  if root.isPrefixOf p then some (p.drop root.length) else none

/-- The walk of `ensure_no_symlink_parents`: push each component of the
relative parent, failing on a symlink created by this session, or — when the
destination root is not `/` — on a pre-existing on-disk symlink. -/
def symlinkWalk (destRoot : AbsPath) (created : List AbsPath) (fs : Fs) :
    AbsPath → List String → Except UnpackErr Unit
  | _, [] => .ok ()
  | current, c :: rest =>
    let cur := current ++ [c]
    if cur ∈ created then .error (.sessionSymlinkParent cur)
    else if destRoot ≠ ([] : AbsPath) ∧ isSymlinkNode (fs.lookup cur) = true then
      .error (.onDiskSymlinkParent cur)
    else symlinkWalk destRoot created fs cur rest

/-- `ensure_no_symlink_parents` (`src/compress.rs`). -/
def ensureNoSymlinkParents (destRoot destPath : AbsPath)
    (created : List AbsPath) (fs : Fs) : Except UnpackErr Unit :=
  if destPath.isEmpty then .error .invalidEntryPath
  else
    let parent := destPath.dropLast
    match stripPref destRoot parent with
    | none => .error .escapesRoot
    | some relParent => symlinkWalk destRoot created fs destRoot relParent

/-- `fs::create_dir_all`: create every missing ancestor as a directory; an
ancestor existing as a regular file is an I/O error. -/
def createDirAllGo (curFs : Fs) (current : AbsPath) : List String → Except UnpackErr Fs
  | [] => .ok curFs
  | c :: rest =>
    let cur := current ++ [c]
    match curFs.lookup cur with
    | some .file => .error .createDirConflict
    | some _ => createDirAllGo curFs cur rest
    | none => createDirAllGo (curFs.setNode cur .dir) cur rest

def createDirAll (fs : Fs) (p : AbsPath) : Except UnpackErr Fs :=
  createDirAllGo fs [] p

/-! ## The safe unpack loop (`unpack_archive_safe`) -/

/-- `tar::EntryType`, restricted to the cases the source distinguishes. -/
inductive EType where
  | regular
  | continuous
  | gnuSparse
  | directory
  | symlink
  | link
  | char
  | block
  | fifo
  | xHeader
  | xGlobalHeader
  | gnuLongName
  | gnuLongLink
  | other
deriving DecidableEq, Repr

/-- The pax/GNU metadata entry types skipped at the top of the loop. -/
def isMetaHeader : EType → Bool
  | .xHeader | .xGlobalHeader | .gnuLongName | .gnuLongLink => true
  | _ => false

/-- One archive entry of the (inner) data tarball. -/
structure Entry where
  etype : EType
  path : List PathComp
  linkName : Option (List PathComp)
deriving DecidableEq, Repr

/-- The mutable state of the unpack loop. -/
structure UnpackState where
  fs : Fs
  created : List AbsPath
  installed : List AbsPath
deriving DecidableEq, Repr

/-- One iteration of the entry loop of `unpack_archive_safe`. -/
def unpackStep (destRoot : AbsPath) (st : UnpackState) (e : Entry) :
    Except UnpackErr UnpackState :=
  if isMetaHeader e.etype then .ok st
  else
    match sanitizeEntryPath e.path with
    | .error err => .error err
    | .ok rel =>
      let destPath := destRoot ++ rel
      match ensureNoSymlinkParents destRoot destPath st.created st.fs with
      | .error err => .error err
      | .ok _ =>
        match e.etype with
        | .directory =>
          if isSymlinkNode (st.fs.lookup destPath) then .error .dirOverSymlink
          else
            match createDirAll st.fs destPath with
            | .error err => .error err
            | .ok fs' => .ok { st with fs := fs' }
        | .regular | .continuous | .gnuSparse =>
          match createDirAll st.fs destPath.dropLast with
          | .error err => .error err
          | .ok fs1 =>
            if isDirNode (fs1.lookup destPath) then .error .overwriteDirWithFile
            else
              let fs2 := if (fs1.lookup destPath).isSome then fs1.removeNode destPath else fs1
              .ok { st with fs := fs2.setNode destPath .file
                            installed := st.installed ++ [destPath] }
        | .symlink =>
          match e.linkName with
          | none => .error .missingLinkTarget
          | some target =>
            match validateLinkTarget target with
            | .error err => .error err
            | .ok _ =>
              match createDirAll st.fs destPath.dropLast with
              | .error err => .error err
              | .ok fs1 =>
                if isDirNode (fs1.lookup destPath) then .error .overwriteDirWithSymlink
                else
                  let fs2 := if (fs1.lookup destPath).isSome then fs1.removeNode destPath else fs1
                  .ok { fs := fs2.setNode destPath (.symlink target)
                        created := st.created ++ [destPath]
                        installed := st.installed ++ [destPath] }
        | .link => .error .hardLinkRejected
        | .char | .block | .fifo => .error .specialRejected
        | _ => .error .unsupportedType

/-- The entry loop of `unpack_archive_safe`, stopping at the first error and
returning the state reached so far together with the error, if any. -/
def unpackRun (destRoot : AbsPath) : List Entry → UnpackState → UnpackState × Option UnpackErr
  | [], st => (st, none)
  | e :: rest, st =>
    match unpackStep destRoot st e with
    | .error err => (st, some err)
    | .ok st' => unpackRun destRoot rest st'

/-- `unpack_archive_safe` (`src/compress.rs`): on success, the final
filesystem and the list of installed regular files and symlinks. -/
def unpackArchiveSafe (destRoot : AbsPath) (entries : List Entry) (fs : Fs) :
    Except UnpackErr (Fs × List AbsPath) :=
  match unpackRun destRoot entries { fs := fs, created := [], installed := [] } with
  | (st, none) => .ok (st.fs, st.installed)
  | (_, some err) => .error err

/-! ## The outer `.nxpkg` container (`extract_nxpkg`, `read_recipe_from_nxpkg`) -/

/-- One entry of the outer tar container; `content` is its byte payload. -/
structure OuterEntry where
  etype : EType
  path : List PathComp
  content : RStr
deriving DecidableEq, Repr

/-- `matches!(entry_type, Regular | Continuous | GNUSparse)`, the filter both
outer readers apply before looking at the entry path. -/
def isOuterRegular (t : EType) : Bool :=
  t = .regular || t = .continuous || t = .gnuSparse

inductive ExtractErr where
  | unpack (e : UnpackErr)
  | recipeMissing
  | parse (e : RecipeErr)
  | archUnsupported
  | dataMissing
deriving DecidableEq, Repr

/-- The entry loop of `extract_nxpkg`: collect the recipe text and the data
tarball bytes (the last matching entry wins for each). -/
def outerScan : List OuterEntry → Option RStr → Option RStr →
    Except UnpackErr (Option RStr × Option RStr)
  | [], recipeText, dataBytes => .ok (recipeText, dataBytes)
  | e :: rest, recipeText, dataBytes =>
    if !isOuterRegular e.etype then outerScan rest recipeText dataBytes
    else
      match sanitizeEntryPath e.path with
      | .error err => .error err
      | .ok rel =>
        if rel = ["package.cfg"] then outerScan rest (some e.content) dataBytes
        else if rel = ["data.tar.gz"] then outerScan rest recipeText (some e.content)
        else outerScan rest recipeText dataBytes

/-- `extract_nxpkg` (`src/compress.rs`): scan the outer container, parse the
recipe, validate the architecture, then stream the data tarball onto `/`.
`decodeTar` abstracts gunzip + tar reading of the data payload; the final
filesystem is returned alongside the result so failure paths are observable. -/
def extractNxpkg (decodeTar : RStr → List Entry) (hostArch : RStr)
    (entries : List OuterEntry) (fs : Fs) :
    Except ExtractErr (PackageRecipe × List AbsPath) × Fs :=
  match outerScan entries none none with
  | .error err => (.error (.unpack err), fs)
  | .ok (recipeText, dataBytes) =>
    match recipeText with
    | none => (.error .recipeMissing, fs)
    | some txt =>
      match PackageRecipe.fromStr txt with
      | .error err => (.error (.parse err), fs)
      | .ok recipe =>
        if !supportsCurrentArch recipe.package.architectures hostArch then
          (.error .archUnsupported, fs)
        else
          match dataBytes with
          | none => (.error .dataMissing, fs)
          | some bytes =>
            match unpackRun [] (decodeTar bytes) { fs := fs, created := [], installed := [] } with
            | (st, none) => (.ok (recipe, st.installed), st.fs)
            | (st, some err) => (.error (.unpack err), st.fs)

/-- `read_recipe_from_nxpkg` (`src/compress.rs`): return the parsed recipe of
the first regular `package.cfg` entry. -/
def readRecipeScan : List OuterEntry → Except ExtractErr PackageRecipe
  | [] => .error .recipeMissing
  | e :: rest =>
    if !isOuterRegular e.etype then readRecipeScan rest
    else
      match sanitizeEntryPath e.path with
      | .error err => .error (.unpack err)
      | .ok rel =>
        if rel = ["package.cfg"] then
          match PackageRecipe.fromStr e.content with
          | .ok r => .ok r
          | .error err => .error (.parse err)
        else readRecipeScan rest

/-! ## Index fetch and download (`src/db/download.rs`, `src/trust.rs`) -/

/-- Outcome of one `reqwest` request: a transport-level failure (`send()` or
body read returns `Err`), an unsuccessful HTTP status, or a body. -/
inductive HttpResult (β : Type) where
  | ok (body : β)
  | httpErr
  | netErr
deriving DecidableEq, Repr

inductive FetchErr where
  | indexNetErr
  | indexHttpErr
  | sigNetErr
  | sigBadBase64
  | pubkeyReadErr
  | pubkeyBadBase64
  | sigVerifyFailed
  | sigMissing
  | pubkeyRequired
  | parseFailed
deriving DecidableEq, Repr

/-- `fetch_index_verified` (`src/db/download.rs`).  `β` is the byte-string
type of the served index, `σ` the type of decoded base64 blobs, `ι` the parsed
index type; `b64decode` abstracts `base64::decode`, `verify` abstracts
`trust::verify_ed25519_index`, `parseIndex` abstracts `serde_json::from_slice`,
and `pubkeyRead` is the result of reading the configured pubkey file. -/
def fetchIndexVerified {β σ ι : Type}
    (indexResp : HttpResult β) (sigResp : HttpResult RStr)
    (pubkeyConfigured : Bool) (pubkeyRead : Option RStr)
    (requireSignature : Bool)
    (b64decode : RStr → Option σ)
    (verify : β → σ → σ → Bool)
    (parseIndex : β → Option ι) : Except FetchErr ι :=
  match indexResp with
  | .netErr => .error .indexNetErr
  | .httpErr => .error .indexHttpErr
  | .ok indexBytes =>
    let gate : Except FetchErr Unit :=
      if pubkeyConfigured then
        match sigResp with
        | .netErr => .error .sigNetErr
        | .ok sigText =>
          match b64decode (trim sigText) with
          | none => .error .sigBadBase64
          | some sigRaw =>
            match pubkeyRead with
            | none => .error .pubkeyReadErr
            | some pkText =>
              match b64decode (trim pkText) with
              | none => .error .pubkeyBadBase64
              | some pkRaw =>
                if !verify indexBytes sigRaw pkRaw && requireSignature then
                  .error .sigVerifyFailed
                else .ok ()
        | .httpErr => if requireSignature then .error .sigMissing else .ok ()
      else if requireSignature then .error .pubkeyRequired else .ok ()
    match gate with
    | .error err => .error err
    | .ok _ =>
      match parseIndex indexBytes with
      | none => .error .parseFailed
      | some idx => .ok idx

inductive DlErr where
  | http
  | mismatch (expected got : RStr)
deriving DecidableEq, Repr

/-- `download_file_with_progress` (`src/db/download.rs`): stream the body
chunks to the destination while hashing them; if an expected digest was given,
compare lowercase hex and delete the destination on mismatch.  `sha256hex`
abstracts the SHA-256 hasher plus `hex::encode`; the second component of the
result is the destination file state (contents, or `none` when absent). -/
def downloadFileWithProgress {β : Type}
    (resp : HttpResult (List (List β)))
    (sha256hex : List β → RStr)
    (expectedSha : Option RStr)
    (dest : Option (List β)) : Except DlErr Unit × Option (List β) :=
  match resp with
  | .netErr => (.error .http, dest)
  | .httpErr => (.error .http, dest)
  | .ok chunks =>
    let content := chunks.flatten
    let checksumHex := sha256hex content
    match expectedSha with
    | some expected =>
      let expectedNorm := (trim expected).map Char.toLower
      if checksumHex != expectedNorm then (.error (.mismatch expectedNorm checksumHex), none)
      else (.ok (), some content)
    | none => (.ok (), some content)

/-! ## Build-system selection (`src/main.rs`) -/

inductive BuildSystemKind where
  | cargo
  | meson
  | cmake
  | scons
  | make
deriving DecidableEq, Repr

/-- `BuildSystemKind::priority`. -/
def BuildSystemKind.priority : BuildSystemKind → Nat
  | .cargo => 0
  | .meson => 1
  | .cmake => 2
  | .scons => 3
  | .make => 4

structure BuildSystemMatch where
  kind : BuildSystemKind
  path : List String
  depth : Nat
deriving DecidableEq, Repr

/-- The comparison of `matches.sort_by_key(|c| c.depth)`. -/
def rDepth (a b : BuildSystemMatch) : Prop := a.depth ≤ b.depth

instance : DecidableRel rDepth := fun a b => Nat.decLe a.depth b.depth

/-- The comparison of `matches.sort_by_key(|c| (c.kind.priority(), c.depth))`
(lexicographic order on the pair, as for Rust tuples). -/
def rKey (a b : BuildSystemMatch) : Prop :=
  a.kind.priority < b.kind.priority ∨
    (a.kind.priority = b.kind.priority ∧ a.depth ≤ b.depth)

instance : DecidableRel rKey := fun a b => by unfold rKey; infer_instance

/-- `pick_build_system` (`src/main.rs`).  Rust `sort_by_key` is a stable sort;
a stable sort's output is uniquely determined by the key comparison, so it is
embedded as the (stable) insertion sort. -/
def pickBuildSystem (candidates : List BuildSystemMatch)
    (preferred : Option BuildSystemKind) : Option BuildSystemMatch :=
  match preferred with
  | some kind =>
    ((candidates.filter (fun c => c.kind = kind)).insertionSort rDepth).head?
  | none => (candidates.insertionSort rKey).head?

/-- `pick_build_system` plus the fallback of `Commands::Buildins`: when
nothing was picked but a kind was forced, synthesize a candidate rooted at the
source root with depth 0. -/
def selectBuildSystem (candidates : List BuildSystemMatch)
    (preferred : Option BuildSystemKind) (rootPath : List String) :
    Option BuildSystemMatch :=
  match pickBuildSystem candidates preferred with
  | some c => some c
  | none =>
    match preferred with
    | some kind => some { kind := kind, path := rootPath, depth := 0 }
    | none => none

/-! ## Package removal (`rem_package_metadata`, `src/db/mod.rs`) -/

/-- One row of the `packages` table (list fields stored as joined strings). -/
structure DbRow where
  version : RStr
  architectures : RStr
  dependencies : RStr
  buildCommands : RStr
  installParams : RStr
  installedFiles : RStr
deriving DecidableEq, Repr

abbrev Db := List (RStr × DbRow)

/-- `get_package_metadata` (`src/db/mod.rs`): look the row up and re-split the
joined list fields. -/
def getPackageMetadata (db : Db) (name : RStr) : Option PackageRecipe :=
  match db.find? (fun e => e.1 = name) with
  | none => none
  | some e =>
    some { package := { name := name
                        version := e.2.version
                        architectures := parseListOn ',' e.2.architectures }
           build := { dependencies := parseListOn ',' e.2.dependencies
                      commands := parseListOn ';' e.2.buildCommands }
           install := { installParams := parseListOn ',' e.2.installParams
                        installedFiles := parseListOn ';' e.2.installedFiles } }

/-- The filesystem as seen by removal: the sets of existing regular-file paths
and directory paths (paths as raw strings, as stored in the manifest). -/
structure RmFs where
  files : List RStr
  dirs : List RStr
deriving DecidableEq, Repr

/-- `Path::parent`, on raw path strings without trailing slashes:
`"/usr/bin/demo" → "/usr/bin"`, `"/usr" → "/"`, `"demo" → ""`, `"/" → none`. -/
def rustParent (p : RStr) : Option RStr :=
  if p.isEmpty then none
  else if p = ['/'] then none
  else
    match p.reverse.findIdx? (fun c => c = '/') with
    | none => some []
    | some rIdx =>
      let i := p.length - 1 - rIdx
      if i = 0 then some ['/'] else some (p.take i)

/-- The per-file body of the removal loop: `if path.exists()` then
`fs::remove_file`, whose failure (modelled by the oracle `removeOk` returning
`false`) is only logged. -/
def removeFileStep (removeOk : RStr → Bool) (fs : RmFs) (p : RStr) : RmFs :=
  if p ∈ fs.files ∨ p ∈ fs.dirs then
    if p ∈ fs.files ∧ removeOk p then
      { fs with files := fs.files.filter (fun q => q != p) }
    else fs
  else fs

/-- `dir.read_dir()` yields no entry: nothing on disk has `d` as parent. -/
def dirIsEmpty (fs : RmFs) (d : RStr) : Bool :=
  fs.files.all (fun f => rustParent f != some d) &&
    fs.dirs.all (fun x => rustParent x != some d)

/-- The per-directory body of the pruning loop: remove the directory only if
it is a directory and reading it yields no entry. -/
def pruneDirStep (fs : RmFs) (d : RStr) : RmFs :=
  if d ∈ fs.dirs ∧ dirIsEmpty fs d then
    { fs with dirs := fs.dirs.filter (fun q => q != d) }
  else fs

/-- The unique parent directories of the installed files, sorted by descending
string length (`sort_by_key(|b| Reverse(b.as_os_str().len()))`; the `HashSet`
iteration order before the stable sort is arbitrary, realized here as
first-occurrence order). -/
def pruneList (installedFiles : List RStr) : List RStr :=
  ((installedFiles.filterMap rustParent).dedup).insertionSort
    (fun a b => b.length ≤ a.length)

/-- `rem_package_metadata` (`src/db/mod.rs`): best-effort file deletion, then
empty-directory pruning, then the database delete (which runs in any case). -/
def remPackageMetadata (db : Db) (name : RStr) (removeOk : RStr → Bool)
    (fs : RmFs) : Db × RmFs :=
  match getPackageMetadata db name with
  | some recipe =>
    let fs1 := recipe.install.installedFiles.foldl (removeFileStep removeOk) fs
    let fs2 := (pruneList recipe.install.installedFiles).foldl pruneDirStep fs1
    (db.filter (fun e => e.1 != name), fs2)
  | none => (db.filter (fun e => e.1 != name), fs)

/-! ## Shared helper lemmas -/

/-- The head of a stable sort under a transitive, total comparison is a
minimum of the input list. -/
theorem head_insertionSort_min {α : Type} (r : α → α → Prop) [DecidableRel r]
    (htrans : ∀ a b c, r a b → r b c → r a c)
    (htotal : ∀ a b, r a b ∨ r b a)
    (l : List α) (c : α) (h : (l.insertionSort r).head? = some c) :
    c ∈ l ∧ ∀ x ∈ l, r c x := by
  haveI : IsTotal α r := ⟨htotal⟩
  haveI : IsTrans α r := ⟨htrans⟩
  have hsorted : (l.insertionSort r).Sorted r := List.sorted_insertionSort r l
  obtain ⟨t, ht⟩ : ∃ t, l.insertionSort r = c :: t := by
    cases hm : l.insertionSort r with
    | nil => rw [hm] at h; simp at h
    | cons a t =>
      rw [hm] at h
      simp only [List.head?_cons, Option.some.injEq] at h
      exact ⟨t, by rw [h]⟩
  have hperm := List.perm_insertionSort r l
  refine ⟨hperm.mem_iff.mp (by rw [ht]; exact List.mem_cons_self _ _), ?_⟩
  intro x hx
  have hx' : x ∈ l.insertionSort r := hperm.mem_iff.mpr hx
  rw [ht] at hx' hsorted
  rcases List.mem_cons.mp hx' with hxc | hx''
  · subst hxc
    rcases htotal x x with hr | hr
    · exact hr
    · exact hr
  · exact (List.pairwise_cons.mp hsorted).1 x hx''

/-- A nonempty list sorts to a list with a head. -/
theorem insertionSort_head_exists {α : Type} (r : α → α → Prop) [DecidableRel r]
    (l : List α) (h : l ≠ []) : ∃ c, (l.insertionSort r).head? = some c := by
  cases hm : l.insertionSort r with
  | nil =>
    have := (List.perm_insertionSort r l).length_eq
    rw [hm] at this
    cases l with
    | nil => exact absurd rfl h
    | cons a t => simp at this
  | cons a t => exact ⟨a, rfl⟩

theorem dropWhile_len_le (p : Char → Bool) (l : RStr) :
    (l.dropWhile p).length ≤ l.length :=
  (List.dropWhile_suffix p).length_le

theorem trimR_len_le (s : RStr) : (trimR s).length ≤ s.length := by
  rw [trimR]
  have := dropWhile_len_le isWs s.reverse
  simpa using this

theorem trim_parts {s : RStr} (h : trim s = s) :
    s.dropWhile isWs = s ∧ trimR s = s := by
  have h1 : (s.dropWhile isWs).length ≤ s.length := dropWhile_len_le isWs s
  have h2 : (trimR (s.dropWhile isWs)).length ≤ (s.dropWhile isWs).length :=
    trimR_len_le _
  rw [trim] at h
  have hlen : (s.dropWhile isWs).length = s.length := by
    have := congrArg List.length h
    omega
  have hdw : s.dropWhile isWs = s :=
    (List.dropWhile_suffix isWs).eq_of_length hlen
  exact ⟨hdw, by rwa [hdw] at h⟩

theorem trimR_rev {s : RStr} (h : trimR s = s) :
    s.reverse.dropWhile isWs = s.reverse := by
  rw [trimR] at h
  have := congrArg List.reverse h
  simpa using this

theorem trimR_append {b : RStr} (hb : trimR b = b) (hbne : b ≠ []) (a : RStr) :
    trimR (a ++ b) = a ++ b := by
  have hbr := trimR_rev hb
  rw [trimR, List.reverse_append, List.dropWhile_append, hbr]
  rw [if_neg (by simp [List.isEmpty_iff, hbne])]
  simp

theorem trimL_append {a : RStr} (ha : a.dropWhile isWs = a) (hane : a ≠ []) (b : RStr) :
    (a ++ b).dropWhile isWs = a ++ b := by
  rw [List.dropWhile_append, ha, if_neg (by simp [List.isEmpty_iff, hane])]

theorem trim_eq_self_of {s : RStr} (h1 : s.dropWhile isWs = s) (h2 : trimR s = s) :
    trim s = s := by
  rw [trim, h1, h2]

theorem trim_ws_cons (c : Char) (hc : isWs c = true) (s : RStr) :
    trim (c :: s) = trim s := by
  rw [trim, List.dropWhile_cons, if_pos hc, trim]

theorem getLast?_not_ws {s : RStr} (h : trimR s = s) (_hne : s ≠ []) :
    ∀ c, s.getLast? = some c → isWs c = false := by
  intro c hc
  have hrev : s.reverse.dropWhile isWs = s.reverse := trimR_rev h
  have hhead : s.reverse.head? = some c := by
    rw [List.head?_reverse]
    exact hc
  obtain ⟨t, ht⟩ : ∃ t, s.reverse = c :: t := by
    cases hr : s.reverse with
    | nil => rw [hr] at hhead; simp at hhead
    | cons x t =>
      rw [hr] at hhead
      simp only [List.head?_cons, Option.some.injEq] at hhead
      exact ⟨t, by rw [hhead]⟩
  rw [ht, List.dropWhile_cons] at hrev
  by_cases hw : isWs c = true
  · rw [if_pos hw] at hrev
    have hlen := congrArg List.length hrev
    have hle := dropWhile_len_le isWs t
    simp at hlen
    omega
  · simpa using hw

theorem stripCr_of_trimR {b : RStr} (hb : trimR b = b) (hbne : b ≠ []) (a : RStr) :
    stripCr (a ++ b) = a ++ b := by
  obtain ⟨c, hc⟩ : ∃ c, b.getLast? = some c := by
    cases hbl : b.getLast? with
    | none => exact absurd (by simpa using hbl) hbne
    | some c => exact ⟨c, rfl⟩
  have hnw := getLast?_not_ws hb hbne c hc
  have hlast : (a ++ b).getLast? = some c := by
    rw [List.getLast?_append, hc]
    rfl
  rw [stripCr, hlast, if_neg]
  intro hcr
  simp only [Option.some.injEq] at hcr
  rw [hcr] at hnw
  simp [isWs] at hnw

theorem splitOnChar_ne_nil (c : Char) (s : RStr) : splitOnChar c s ≠ [] := by
  cases s with
  | nil => simp [splitOnChar]
  | cons x xs =>
    simp only [splitOnChar]
    cases h : splitOnChar c xs with
    | nil => simp
    | cons y ys =>
      by_cases hx : x = c
      · simp [hx]
      · simp [hx]

theorem splitOnChar_not_mem {c : Char} {s : RStr} (h : c ∉ s) :
    splitOnChar c s = [s] := by
  induction s with
  | nil => rfl
  | cons x xs ih =>
    have hx : x ≠ c := fun hxc => h (by rw [hxc]; exact List.mem_cons_self _ _)
    have hxs : c ∉ xs := fun hc => h (List.mem_cons_of_mem _ hc)
    simp only [splitOnChar, ih hxs]
    simp [hx]

theorem splitOnChar_append_eq (c : Char) (a b : RStr) (ha : c ∉ a) :
    splitOnChar c (a ++ (c :: b)) = a :: splitOnChar c b := by
  induction a with
  | nil =>
    simp only [List.nil_append, splitOnChar]
    cases h : splitOnChar c b with
    | nil => exact absurd h (splitOnChar_ne_nil c b)
    | cons y ys => simp [h]
  | cons x a' ih =>
    have hx : x ≠ c := fun hxc => ha (by rw [hxc]; exact List.mem_cons_self _ _)
    have ha' : c ∉ a' := fun hc => ha (List.mem_cons_of_mem _ hc)
    simp only [List.cons_append, splitOnChar, List.append_eq]
    rw [ih ha']
    simp [hx]

theorem splitOnceChar_append (c : Char) (a b : RStr) (ha : c ∉ a) :
    splitOnceChar c (a ++ (c :: b)) = some (a, b) := by
  induction a with
  | nil => simp [splitOnceChar]
  | cons x a' ih =>
    have hx : x ≠ c := fun hxc => ha (by rw [hxc]; exact List.mem_cons_self _ _)
    have ha' : c ∉ a' := fun hc => ha (List.mem_cons_of_mem _ hc)
    simp only [List.cons_append, splitOnceChar]
    simp [hx, ih ha']

theorem rustLines_newline (a rest : RStr) (ha : '\n' ∉ a) :
    rustLines (a ++ ('\n' :: rest)) = stripCr a :: rustLines rest := by
  have hsplit := splitOnChar_append_eq '\n' a rest ha
  obtain ⟨s0, t, hS⟩ : ∃ s0 t, (splitOnChar '\n' rest).reverse = s0 :: t := by
    cases h : (splitOnChar '\n' rest).reverse with
    | nil => exact absurd (by simpa using h) (splitOnChar_ne_nil '\n' rest)
    | cons x y => exact ⟨x, y, rfl⟩
  simp only [rustLines]
  rw [hsplit, List.reverse_cons, hS]
  simp only [List.cons_append]
  by_cases h0 : s0 = []
  · simp [h0, List.reverse_append]
  · simp [h0, List.reverse_append]

theorem rustLines_newline2 (x y rest : RStr) (hx : '\n' ∉ x) (hy : '\n' ∉ y) :
    rustLines (x ++ (y ++ ('\n' :: rest))) = stripCr (x ++ y) :: rustLines rest := by
  rw [← List.append_assoc]
  exact rustLines_newline (x ++ y) rest (by simp [hx, hy])

theorem rustLines_empty_line (z : RStr) : rustLines ('\n' :: z) = [] :: rustLines z := by
  have h := rustLines_newline [] z (by simp)
  simpa [stripCr] using h

theorem joinSep_clean (c : Char) (hcnl : c ≠ '\n')
    (els : List RStr) (hne : els ≠ [])
    (h : ∀ e ∈ els, e ≠ [] ∧ trim e = e ∧ '\n' ∉ e) :
    joinSep [c, ' '] els ≠ [] ∧ trim (joinSep [c, ' '] els) = joinSep [c, ' '] els ∧
      '\n' ∉ joinSep [c, ' '] els := by
  induction els with
  | nil => exact absurd rfl hne
  | cons x rest ih =>
    obtain ⟨hxne, hxtrim, hxnl⟩ := h x (List.mem_cons_self _ _)
    have hxparts := trim_parts hxtrim
    cases rest with
    | nil => exact ⟨hxne, hxtrim, hxnl⟩
    | cons y t =>
      obtain ⟨hJne, hJtrim, hJnl⟩ :=
        ih (by simp) (fun e he => h e (List.mem_cons_of_mem _ he))
      have hJparts := trim_parts hJtrim
      refine ⟨?_, ?_, ?_⟩
      · show (x ++ [c, ' ']) ++ joinSep [c, ' '] (y :: t) ≠ []
        simp [List.append_eq_nil, hxne]
      · show trim ((x ++ [c, ' ']) ++ joinSep [c, ' '] (y :: t)) =
          (x ++ [c, ' ']) ++ joinSep [c, ' '] (y :: t)
        refine trim_eq_self_of ?_ (trimR_append hJparts.2 hJne _)
        rw [List.append_assoc]
        exact trimL_append hxparts.1 hxne _
      · show '\n' ∉ (x ++ [c, ' ']) ++ joinSep [c, ' '] (y :: t)
        intro hmem
        rcases List.mem_append.mp hmem with h1 | h1
        · rcases List.mem_append.mp h1 with h2 | h2
          · exact hxnl h2
          · rcases List.mem_cons.mp h2 with h3 | h3
            · exact hcnl h3.symm
            · simp at h3
        · exact hJnl h1

theorem map_trim_split_join (c : Char) (hc : c ≠ ' ')
    (els : List RStr) (hne : els ≠ [])
    (h : ∀ e ∈ els, e ≠ [] ∧ trim e = e ∧ c ∉ e) :
    (splitOnChar c (joinSep [c, ' '] els)).map trim = els := by
  induction els with
  | nil => exact absurd rfl hne
  | cons x rest ih =>
    obtain ⟨hxne, hxtrim, hxc⟩ := h x (List.mem_cons_self _ _)
    cases rest with
    | nil =>
      rw [show joinSep [c, ' '] [x] = x from rfl, splitOnChar_not_mem hxc]
      simp [hxtrim]
    | cons y t =>
      have hih := ih (by simp) (fun e he => h e (List.mem_cons_of_mem _ he))
      have hform : joinSep [c, ' '] (x :: y :: t) =
          x ++ (c :: (' ' :: joinSep [c, ' '] (y :: t))) := by
        show (x ++ [c, ' ']) ++ joinSep [c, ' '] (y :: t) = _
        rw [List.append_assoc]
        rfl
      rw [hform, splitOnChar_append_eq c x _ hxc]
      obtain ⟨y', ys, hJ⟩ :
          ∃ y' ys, splitOnChar c (joinSep [c, ' '] (y :: t)) = y' :: ys := by
        cases hj : splitOnChar c (joinSep [c, ' '] (y :: t)) with
        | nil => exact absurd hj (splitOnChar_ne_nil _ _)
        | cons a b => exact ⟨a, b, rfl⟩
      have hws : splitOnChar c (' ' :: joinSep [c, ' '] (y :: t)) = (' ' :: y') :: ys := by
        simp only [splitOnChar, hJ]
        simp [Ne.symm hc]
      rw [hws]
      rw [hJ] at hih
      simp only [List.map_cons] at hih ⊢
      rw [trim_ws_cons ' ' (by decide) y', hxtrim, hih]

theorem parseListOn_join (c : Char) (hc : c ≠ ' ')
    (els : List RStr) (hne : els ≠ [])
    (h : ∀ e ∈ els, e ≠ [] ∧ trim e = e ∧ c ∉ e) :
    parseListOn c (joinSep [c, ' '] els) = els := by
  rw [parseListOn, map_trim_split_join c hc els hne h]
  rw [List.filter_eq_self.mpr]
  intro a ha
  have := (h a ha).1
  simp [List.isEmpty_iff, this]

theorem processLine_kv (sec : RStr) (r : PackageRecipe) (c0 : Char) (a' v : RStr)
    (hc0ws : isWs c0 = false) (hc0h : c0 ≠ '#') (hc0s : c0 ≠ ';') (hc0b : c0 ≠ '[')
    (hnoeq : '=' ∉ (c0 :: a')) (hv : trim v = v) (hvne : v ≠ []) :
    processLine (sec, r) ((c0 :: a') ++ ('=' :: (' ' :: v))) =
      (if sec = "package".toList then
        if trim (c0 :: a') = "name".toList then
          (sec, { r with package := { r.package with name := v } })
        else if trim (c0 :: a') = "version".toList then
          (sec, { r with package := { r.package with version := v } })
        else if trim (c0 :: a') = "architectures".toList then
          (sec, { r with package := { r.package with architectures := parseListOn ',' v } })
        else (sec, r)
      else if sec = "build".toList then
        if trim (c0 :: a') = "dependencies".toList then
          (sec, { r with build := { r.build with dependencies := parseListOn ',' v } })
        else if trim (c0 :: a') = "commands".toList then
          (sec, { r with build := { r.build with commands := parseListOn ';' v } })
        else (sec, r)
      else if sec = "install".toList then
        if trim (c0 :: a') = "install_params".toList then
          (sec, { r with install := { r.install with installParams := parseListOn ',' v } })
        else (sec, r)
      else (sec, r)) := by
  have hvparts := trim_parts hv
  have htrim : trim ((c0 :: a') ++ ('=' :: (' ' :: v))) = (c0 :: a') ++ ('=' :: (' ' :: v)) := by
    refine trim_eq_self_of ?_ ?_
    · rw [List.cons_append, List.dropWhile_cons, if_neg (by simp [hc0ws])]
    · rw [show (c0 :: a') ++ ('=' :: (' ' :: v)) = ((c0 :: a') ++ ['=', ' ']) ++ v by
        rw [List.append_assoc]
        rfl]
      exact trimR_append hvparts.2 hvne _
  have hsplit : splitOnceChar '=' ((c0 :: a') ++ ('=' :: (' ' :: v))) =
      some (c0 :: a', ' ' :: v) := splitOnceChar_append '=' (c0 :: a') (' ' :: v) hnoeq
  have hval : trim (' ' :: v) = v := by rw [trim_ws_cons ' ' (by decide), hv]
  have hline : (c0 :: a') ++ ('=' :: (' ' :: v)) = c0 :: (a' ++ ('=' :: (' ' :: v))) := rfl
  have htrim2 : trim (c0 :: (a' ++ ('=' :: (' ' :: v)))) =
      c0 :: (a' ++ ('=' :: (' ' :: v))) := by
    rw [← hline]
    exact htrim
  have hsplit2 : splitOnceChar '=' (c0 :: (a' ++ ('=' :: (' ' :: v)))) =
      some (c0 :: a', ' ' :: v) := by
    rw [← hline]
    exact hsplit
  rw [hline]
  simp only [processLine, htrim2, hsplit2, hval, List.isEmpty_cons, startsWithChar,
    endsWithChar]
  simp [hc0h, hc0s, hc0b]

theorem step_empty (sec : RStr) (r : PackageRecipe) :
    processLine (sec, r) [] = (sec, r) := rfl

theorem step_pkg_header (sec : RStr) (r : PackageRecipe) :
    processLine (sec, r) "[package]".toList = ("package".toList, r) := rfl

theorem step_build_header (sec : RStr) (r : PackageRecipe) :
    processLine (sec, r) "[build]".toList = ("build".toList, r) := rfl

theorem step_install_header (sec : RStr) (r : PackageRecipe) :
    processLine (sec, r) "[install]".toList = ("install".toList, r) := rfl

theorem step_name (r : PackageRecipe) (v : RStr) (hv : trim v = v) (hvne : v ≠ []) :
    processLine ("package".toList, r) ("name = ".toList ++ v) =
      ("package".toList, { r with package := { r.package with name := v } }) := by
  rw [show ("name = ".toList ++ v) = (('n' :: "ame ".toList) ++ ('=' :: (' ' :: v))) from rfl]
  rw [processLine_kv _ r 'n' "ame ".toList v (by decide) (by decide) (by decide) (by decide)
    (by decide) hv hvne]
  rw [if_pos rfl, if_pos (show trim ('n' :: "ame ".toList) = "name".toList from by decide)]

theorem step_version (r : PackageRecipe) (v : RStr) (hv : trim v = v) (hvne : v ≠ []) :
    processLine ("package".toList, r) ("version = ".toList ++ v) =
      ("package".toList, { r with package := { r.package with version := v } }) := by
  rw [show ("version = ".toList ++ v) = (('v' :: "ersion ".toList) ++ ('=' :: (' ' :: v))) from rfl]
  rw [processLine_kv _ r 'v' "ersion ".toList v (by decide) (by decide) (by decide) (by decide)
    (by decide) hv hvne]
  rw [if_pos rfl, if_neg (show ¬trim ('v' :: "ersion ".toList) = "name".toList from by decide),
    if_pos (show trim ('v' :: "ersion ".toList) = "version".toList from by decide)]

theorem step_architectures (r : PackageRecipe) (v : RStr) (hv : trim v = v) (hvne : v ≠ []) :
    processLine ("package".toList, r) ("architectures = ".toList ++ v) =
      ("package".toList,
        { r with package := { r.package with architectures := parseListOn ',' v } }) := by
  rw [show ("architectures = ".toList ++ v) =
    (('a' :: "rchitectures ".toList) ++ ('=' :: (' ' :: v))) from rfl]
  rw [processLine_kv _ r 'a' "rchitectures ".toList v (by decide) (by decide) (by decide)
    (by decide) (by decide) hv hvne]
  rw [if_pos rfl,
    if_neg (show ¬trim ('a' :: "rchitectures ".toList) = "name".toList from by decide),
    if_neg (show ¬trim ('a' :: "rchitectures ".toList) = "version".toList from by decide),
    if_pos (show trim ('a' :: "rchitectures ".toList) = "architectures".toList from by decide)]

theorem step_dependencies (r : PackageRecipe) (v : RStr) (hv : trim v = v) (hvne : v ≠ []) :
    processLine ("build".toList, r) ("dependencies = ".toList ++ v) =
      ("build".toList,
        { r with build := { r.build with dependencies := parseListOn ',' v } }) := by
  rw [show ("dependencies = ".toList ++ v) =
    (('d' :: "ependencies ".toList) ++ ('=' :: (' ' :: v))) from rfl]
  rw [processLine_kv _ r 'd' "ependencies ".toList v (by decide) (by decide) (by decide)
    (by decide) (by decide) hv hvne]
  rw [if_neg (show ¬("build".toList : RStr) = "package".toList from by decide), if_pos rfl,
    if_pos (show trim ('d' :: "ependencies ".toList) = "dependencies".toList from by decide)]

theorem step_commands (r : PackageRecipe) (v : RStr) (hv : trim v = v) (hvne : v ≠ []) :
    processLine ("build".toList, r) ("commands = ".toList ++ v) =
      ("build".toList, { r with build := { r.build with commands := parseListOn ';' v } }) := by
  rw [show ("commands = ".toList ++ v) =
    (('c' :: "ommands ".toList) ++ ('=' :: (' ' :: v))) from rfl]
  rw [processLine_kv _ r 'c' "ommands ".toList v (by decide) (by decide) (by decide)
    (by decide) (by decide) hv hvne]
  rw [if_neg (show ¬("build".toList : RStr) = "package".toList from by decide), if_pos rfl,
    if_neg (show ¬trim ('c' :: "ommands ".toList) = "dependencies".toList from by decide),
    if_pos (show trim ('c' :: "ommands ".toList) = "commands".toList from by decide)]

theorem step_install_params (r : PackageRecipe) (v : RStr) (hv : trim v = v) (hvne : v ≠ []) :
    processLine ("install".toList, r) ("install_params = ".toList ++ v) =
      ("install".toList,
        { r with install := { r.install with installParams := parseListOn ',' v } }) := by
  rw [show ("install_params = ".toList ++ v) =
    (('i' :: "nstall_params ".toList) ++ ('=' :: (' ' :: v))) from rfl]
  rw [processLine_kv _ r 'i' "nstall_params ".toList v (by decide) (by decide) (by decide)
    (by decide) (by decide) hv hvne]
  rw [if_neg (show ¬("install".toList : RStr) = "package".toList from by decide),
    if_neg (show ¬("install".toList : RStr) = "build".toList from by decide), if_pos rfl,
    if_pos (show trim ('i' :: "nstall_params ".toList) = "install_params".toList from by decide)]

/-- A scalar recipe value that survives INI rendering: non-empty,
whitespace-trimmed, and single-line. -/
def cleanVal (s : RStr) : Prop := s ≠ [] ∧ trim s = s ∧ '\n' ∉ s

/-- A non-empty recipe list whose items are clean values free of the list
separator `c`. -/
def cleanItems (c : Char) (l : List RStr) : Prop :=
  l ≠ [] ∧ ∀ e ∈ l, e ≠ [] ∧ trim e = e ∧ '\n' ∉ e ∧ c ∉ e

instance (s : RStr) : Decidable (cleanVal s) := by
  unfold cleanVal
  infer_instance

instance (c : Char) (l : List RStr) : Decidable (cleanItems c l) := by
  unfold cleanItems
  infer_instance

/-! ## Claims -/

/-- C6: with an expected SHA-256 digest, the download succeeds iff the hash of
the bytes streamed to the destination equals the expected digest normalized by
trimming and lowercasing; on success the destination holds exactly the
streamed bytes, and on mismatch the destination is removed and the call
fails. -/
theorem download_checksum_enforced {β : Type}
    (sha256hex : List β → RStr) (dest : Option (List β))
    (h : RStr) (chunks : List (List β)) :
    (((downloadFileWithProgress (.ok chunks) sha256hex (some h) dest).1 = .ok ()) ↔
      sha256hex chunks.flatten = (trim h).map Char.toLower)
    ∧ ((downloadFileWithProgress (.ok chunks) sha256hex (some h) dest).1 = .ok () →
        (downloadFileWithProgress (.ok chunks) sha256hex (some h) dest).2 =
          some chunks.flatten)
    ∧ (sha256hex chunks.flatten ≠ (trim h).map Char.toLower →
        (downloadFileWithProgress (.ok chunks) sha256hex (some h) dest).2 = none ∧
        ∃ e, (downloadFileWithProgress (.ok chunks) sha256hex (some h) dest).1 = .error e) := by
  simp only [downloadFileWithProgress]
  by_cases hc : sha256hex chunks.flatten = (trim h).map Char.toLower
  · simp [hc]
  · simp [hc]

/-- C6 witness: a mismatching run, where the destination ends up removed. -/
theorem download_checksum_enforced_witness :
    (downloadFileWithProgress (β := Nat) (.ok [[1], [2]]) (fun _ => ['a'])
        (some ['b']) (some [7])).2 = none ∧
    ∃ e, (downloadFileWithProgress (β := Nat) (.ok [[1], [2]]) (fun _ => ['a'])
        (some ['b']) (some [7])).1 = .error e :=
  (download_checksum_enforced (fun _ => ['a']) (some [7]) ['b'] [[1], [2]]).2.2
    (by decide)

/-- C7: with a preferred kind, the pick is a shallowest candidate of that
kind; without a preference, the pick minimizes (kind priority, depth)
lexicographically; with an empty pick but a forced kind, a depth-0 candidate
at the source root is synthesized; and on a tree with `meson.build` and
`CMakeLists.txt` both at depth 0, Meson wins by default and CMake wins under
preference CMake. -/
theorem pick_build_system_spec :
    (∀ (cands : List BuildSystemMatch) (k : BuildSystemKind),
       (∃ c ∈ cands, c.kind = k) →
       ∃ c, pickBuildSystem cands (some k) = some c ∧ c ∈ cands ∧ c.kind = k ∧
         ∀ c' ∈ cands, c'.kind = k → c.depth ≤ c'.depth)
    ∧ (∀ cands : List BuildSystemMatch, cands ≠ [] →
       ∃ c, pickBuildSystem cands none = some c ∧ c ∈ cands ∧
         ∀ c' ∈ cands, c.kind.priority < c'.kind.priority ∨
           (c.kind.priority = c'.kind.priority ∧ c.depth ≤ c'.depth))
    ∧ (∀ cands k root, pickBuildSystem cands (some k) = none →
        selectBuildSystem cands (some k) root =
          some { kind := k, path := root, depth := 0 })
    ∧ (pickBuildSystem
        [{ kind := .meson, path := [], depth := 0 },
         { kind := .cmake, path := [], depth := 0 }] none =
          some { kind := .meson, path := [], depth := 0 })
    ∧ (pickBuildSystem
        [{ kind := .meson, path := [], depth := 0 },
         { kind := .cmake, path := [], depth := 0 }] (some .cmake) =
          some { kind := .cmake, path := [], depth := 0 }) := by
  have hdTrans : ∀ a b c : BuildSystemMatch, rDepth a b → rDepth b c → rDepth a c := by
    intro a b c; unfold rDepth; omega
  have hdTotal : ∀ a b : BuildSystemMatch, rDepth a b ∨ rDepth b a := by
    intro a b; unfold rDepth; omega
  have hkTrans : ∀ a b c : BuildSystemMatch, rKey a b → rKey b c → rKey a c := by
    intro a b c; unfold rKey; omega
  have hkTotal : ∀ a b : BuildSystemMatch, rKey a b ∨ rKey b a := by
    intro a b; unfold rKey; omega
  refine ⟨?_, ?_, ?_, by decide, by decide⟩
  · intro cands k hex
    obtain ⟨c0, hc0mem, hc0k⟩ := hex
    have hfil : (cands.filter (fun c => c.kind = k)) ≠ [] := by
      intro hnil
      have : c0 ∈ cands.filter (fun c => c.kind = k) := by
        rw [List.mem_filter]
        exact ⟨hc0mem, by simp [hc0k]⟩
      rw [hnil] at this
      exact absurd this (List.not_mem_nil c0)
    obtain ⟨c, hc⟩ := insertionSort_head_exists rDepth _ hfil
    obtain ⟨hcmem, hcmin⟩ := head_insertionSort_min rDepth hdTrans hdTotal _ c hc
    rw [List.mem_filter] at hcmem
    refine ⟨c, ?_, hcmem.1, by simpa using hcmem.2, ?_⟩
    · simp only [pickBuildSystem, hc]
    · intro c' hc'mem hc'k
      have : c' ∈ cands.filter (fun c => c.kind = k) := by
        rw [List.mem_filter]
        exact ⟨hc'mem, by simp [hc'k]⟩
      exact hcmin c' this
  · intro cands hne
    obtain ⟨c, hc⟩ := insertionSort_head_exists rKey _ hne
    obtain ⟨hcmem, hcmin⟩ := head_insertionSort_min rKey hkTrans hkTotal _ c hc
    refine ⟨c, by simp only [pickBuildSystem, hc], hcmem, ?_⟩
    intro c' hc'mem
    exact hcmin c' hc'mem
  · intro cands k root hnone
    simp only [selectBuildSystem, hnone]

/-- C7 witness: the preferred-kind branch exercised on a singleton set. -/
theorem pick_build_system_spec_witness :
    ∃ c, pickBuildSystem [{ kind := .make, path := [], depth := 2 }] (some .make) =
        some c ∧ c ∈ [({ kind := .make, path := [], depth := 2 } : BuildSystemMatch)] ∧
        c.kind = .make ∧
        ∀ c' ∈ [({ kind := .make, path := [], depth := 2 } : BuildSystemMatch)],
          c'.kind = .make → c.depth ≤ c'.depth :=
  pick_build_system_spec.1 [{ kind := .make, path := [], depth := 2 }] .make
    ⟨{ kind := .make, path := [], depth := 2 }, by decide, rfl⟩

/-- C3: with `require_signature` true and a pubkey configured, and given that
the index itself was served and parses, the fetch succeeds iff the signature
request succeeded, signature and pubkey both base64-decode (the pubkey file
being readable), and strict Ed25519 verification passes over the exact served
bytes; with `require_signature` true and no pubkey configured, the fetch
always fails. -/
theorem fetch_index_signature_enforced {β σ ι : Type}
    (indexResp : HttpResult β) (sigResp : HttpResult RStr)
    (pubkeyRead : Option RStr) (b64decode : RStr → Option σ)
    (verify : β → σ → σ → Bool) (parseIndex : β → Option ι) :
    (∃ e, fetchIndexVerified indexResp sigResp false pubkeyRead true
        b64decode verify parseIndex = .error e)
    ∧ (∀ (B : β) (idx : ι), indexResp = .ok B → parseIndex B = some idx →
        (fetchIndexVerified indexResp sigResp true pubkeyRead true
            b64decode verify parseIndex = .ok idx ↔
          ∃ t s pkt pk, sigResp = .ok t ∧ b64decode (trim t) = some s ∧
            pubkeyRead = some pkt ∧ b64decode (trim pkt) = some pk ∧
            verify B s pk = true)) := by
  constructor
  · cases indexResp with
    | netErr => exact ⟨.indexNetErr, rfl⟩
    | httpErr => exact ⟨.indexHttpErr, rfl⟩
    | ok B => exact ⟨.pubkeyRequired, rfl⟩
  · intro B idx hB hparse
    subst hB
    constructor
    · intro hok
      cases sigResp with
      | netErr => simp [fetchIndexVerified] at hok
      | httpErr => simp [fetchIndexVerified] at hok
      | ok t =>
        refine ⟨t, ?_⟩
        cases hs : b64decode (trim t) with
        | none => simp [fetchIndexVerified, hs] at hok
        | some s =>
          refine ⟨s, ?_⟩
          cases hpk : pubkeyRead with
          | none => simp [fetchIndexVerified, hs, hpk] at hok
          | some pkt =>
            refine ⟨pkt, ?_⟩
            cases hpkd : b64decode (trim pkt) with
            | none => simp [fetchIndexVerified, hs, hpk, hpkd] at hok
            | some pk =>
              refine ⟨pk, rfl, rfl, rfl, rfl, ?_⟩
              cases hv : verify B s pk with
              | false => simp [fetchIndexVerified, hs, hpk, hpkd, hv] at hok
              | true => rfl
    · rintro ⟨t, s, pkt, pk, ht, hs, hpk, hpkd, hv⟩
      subst ht
      subst hpk
      simp [fetchIndexVerified, hs, hpkd, hv, hparse]

/-- C3 witness: a successful verified fetch together with the no-pubkey
failure, at concrete abstract-crypto instantiations. -/
theorem fetch_index_signature_enforced_witness :
    (∃ e, fetchIndexVerified (β := Nat) (σ := Nat) (ι := Nat)
        (.ok 5) (.ok ['x']) false none true
        (fun _ => some 9) (fun _ _ _ => true) (fun _ => some 3) = .error e)
    ∧ (fetchIndexVerified (β := Nat) (σ := Nat) (ι := Nat)
        (.ok 5) (.ok ['x']) true (some ['k']) true
        (fun _ => some 9) (fun _ _ _ => true) (fun _ => some 3) = .ok 3 ↔
      ∃ t s pkt pk, (HttpResult.ok ['x'] : HttpResult RStr) = .ok t ∧
        (fun _ : RStr => some 9) (trim t) = some s ∧
        (some ['k'] : Option RStr) = some pkt ∧
        (fun _ : RStr => some 9) (trim pkt) = some pk ∧
        (fun _ _ _ => true) (5 : Nat) s pk = true) :=
  ⟨(fetch_index_signature_enforced (.ok 5) (.ok ['x']) none
      (fun _ => some 9) (fun _ _ _ => true) (fun _ => some 3)).1,
   (fetch_index_signature_enforced (.ok 5) (.ok ['x']) (some ['k'])
      (fun _ => some 9) (fun _ _ _ => true) (fun _ => some 3)).2 5 3 rfl rfl⟩

/-- C9 counterexample: with a pubkey configured and `require_signature`
false, a signature request that fails at the transport level is NOT ignored:
the `?` on `send()` propagates and the whole index fetch fails, even though
the index itself was served and parses. -/
theorem fetch_index_sig_net_err_fails :
    fetchIndexVerified (β := Nat) (σ := Nat) (ι := Nat)
      (.ok 0) .netErr true (some []) false
      (fun _ => some 0) (fun _ _ _ => true) (fun _ => some 1) =
      .error .sigNetErr := rfl

/-- C9 (amended): with a pubkey configured and `require_signature` false, a
signature request answered with an unsuccessful HTTP status, or a signature
that decodes but fails Ed25519 verification, is silently ignored: the fetch
returns the index parsed from the unverified bytes, with no error or warning
value (a transport-level signature-request failure, by contrast, aborts). -/
theorem fetch_index_unverified_ignored {β σ ι : Type}
    (B : β) (idx : ι) (pubkeyRead : Option RStr)
    (b64decode : RStr → Option σ) (verify : β → σ → σ → Bool)
    (parseIndex : β → Option ι) (hparse : parseIndex B = some idx) :
    (fetchIndexVerified (.ok B) .httpErr true pubkeyRead false
        b64decode verify parseIndex = .ok idx)
    ∧ (∀ t s pkt pk, b64decode (trim t) = some s → pubkeyRead = some pkt →
        b64decode (trim pkt) = some pk → verify B s pk = false →
        fetchIndexVerified (.ok B) (.ok t) true pubkeyRead false
          b64decode verify parseIndex = .ok idx) := by
  constructor
  · simp [fetchIndexVerified, hparse]
  · intro t s pkt pk hs hpk hpkd hv
    subst hpk
    simp [fetchIndexVerified, hs, hpkd, hv, hparse]

/-- C9 witness: both ignored paths at concrete instantiations. -/
theorem fetch_index_unverified_ignored_witness :
    (fetchIndexVerified (β := Nat) (σ := Nat) (ι := Nat)
        (.ok 0) .httpErr true (some ['k']) false
        (fun _ => some 0) (fun _ _ _ => false) (fun _ => some 1) = .ok 1)
    ∧ (∀ t s pkt pk, (fun _ : RStr => some 0) (trim t) = some s →
        (some ['k'] : Option RStr) = some pkt →
        (fun _ : RStr => some 0) (trim pkt) = some pk →
        (fun _ _ _ => false) (0 : Nat) s pk = false →
        fetchIndexVerified (β := Nat) (σ := Nat) (ι := Nat)
          (.ok 0) (.ok t) true (some ['k']) false
          (fun _ => some 0) (fun _ _ _ => false) (fun _ => some 1) = .ok 1) :=
  fetch_index_unverified_ignored 0 1 (some ['k'])
    (fun _ => some 0) (fun _ _ _ => false) (fun _ => some 1) rfl

/-- C4: given that the outer scan found a recipe that parses, the
architecture gate passes iff the declared list is empty or some declared
token, normalized (trim, lowercase, `-`→`_`), equals a host alias or
`any`/`noarch`; on a non-empty list with no match, extraction fails with the
arch error and the target filesystem is untouched; and extraction can only
succeed when the gate condition holds. -/
theorem arch_gate_enforced (decodeTar : RStr → List Entry) (hostArch : RStr)
    (entries : List OuterEntry) (fs : Fs) (txt : RStr)
    (dataB : Option RStr) (recipe : PackageRecipe)
    (hscan : outerScan entries none none = .ok (some txt, dataB))
    (hparse : PackageRecipe.fromStr txt = .ok recipe) :
    (supportsCurrentArch recipe.package.architectures hostArch = true ↔
      (recipe.package.architectures = [] ∨
       ∃ d ∈ recipe.package.architectures, normToken d ∈ archAliasesFull hostArch))
    ∧ ((¬ (recipe.package.architectures = [] ∨
          ∃ d ∈ recipe.package.architectures, normToken d ∈ archAliasesFull hostArch)) →
        extractNxpkg decodeTar hostArch entries fs = (.error .archUnsupported, fs))
    ∧ (∀ res fs', extractNxpkg decodeTar hostArch entries fs = (.ok res, fs') →
        (recipe.package.architectures = [] ∨
         ∃ d ∈ recipe.package.architectures, normToken d ∈ archAliasesFull hostArch)) := by
  have hiff : supportsCurrentArch recipe.package.architectures hostArch = true ↔
      (recipe.package.architectures = [] ∨
       ∃ d ∈ recipe.package.architectures, normToken d ∈ archAliasesFull hostArch) := by
    by_cases hArch : recipe.package.architectures = []
    · simp [supportsCurrentArch, hArch]
    · rw [supportsCurrentArch, if_neg (by simpa [List.isEmpty_iff] using hArch)]
      simp only [List.any_eq_true, List.mem_map, decide_eq_true_eq]
      constructor
      · rintro ⟨nd, ⟨d, hd, rfl⟩, a, ha, rfl⟩
        exact Or.inr ⟨d, hd, ha⟩
      · rintro (h | ⟨d, hd, ha⟩)
        · exact absurd h hArch
        · exact ⟨normToken d, ⟨d, hd, rfl⟩, normToken d, ha, rfl⟩
  have hfail : (¬ (recipe.package.architectures = [] ∨
      ∃ d ∈ recipe.package.architectures, normToken d ∈ archAliasesFull hostArch)) →
      extractNxpkg decodeTar hostArch entries fs = (.error .archUnsupported, fs) := by
    intro hno
    have hsup : supportsCurrentArch recipe.package.architectures hostArch = false := by
      rw [← Bool.not_eq_true]
      exact fun h => hno (hiff.mp h)
    simp [extractNxpkg, hscan, hparse, hsup]
  refine ⟨hiff, hfail, ?_⟩
  intro res fs' hex
  by_contra hno
  rw [hfail hno] at hex
  exact absurd (congrArg Prod.fst hex) (by simp)

/-- C4 witness: an `aarch64, arm64` recipe extracted on an `x86_64` host
fails with the arch error leaving the filesystem untouched. -/
theorem arch_gate_enforced_witness :
    (supportsCurrentArch
        ["aarch64".toList, "arm64".toList] "x86_64".toList = true ↔
      (["aarch64".toList, "arm64".toList] = ([] : List RStr) ∨
       ∃ d ∈ ["aarch64".toList, "arm64".toList],
         normToken d ∈ archAliasesFull "x86_64".toList))
    ∧ ((¬ (["aarch64".toList, "arm64".toList] = ([] : List RStr) ∨
          ∃ d ∈ ["aarch64".toList, "arm64".toList],
            normToken d ∈ archAliasesFull "x86_64".toList)) →
        extractNxpkg (fun _ => []) "x86_64".toList
          [{ etype := .regular, path := [.normal "package.cfg"],
             content := "[package]\nname = n\nversion = 1\narchitectures = aarch64, arm64\n".toList }]
          [] = (.error .archUnsupported, []))
    ∧ (∀ res fs',
        extractNxpkg (fun _ => []) "x86_64".toList
          [{ etype := .regular, path := [.normal "package.cfg"],
             content := "[package]\nname = n\nversion = 1\narchitectures = aarch64, arm64\n".toList }]
          [] = (.ok res, fs') →
        (["aarch64".toList, "arm64".toList] = ([] : List RStr) ∨
         ∃ d ∈ ["aarch64".toList, "arm64".toList],
           normToken d ∈ archAliasesFull "x86_64".toList)) :=
  arch_gate_enforced (fun _ => []) "x86_64".toList
    [{ etype := .regular, path := [.normal "package.cfg"],
       content := "[package]\nname = n\nversion = 1\narchitectures = aarch64, arm64\n".toList }]
    [] "[package]\nname = n\nversion = 1\narchitectures = aarch64, arm64\n".toList
    none _ (by rfl) (by rfl)

/-- C10 counterexample: an additional regular outer entry with an
unsanitizable path (`..`) makes recipe-only reading fail even though a
regular, parseable `package.cfg` entry is present. -/
theorem read_recipe_bad_path_aborts :
    readRecipeScan
      [{ etype := .regular, path := [.parentDir], content := [] },
       { etype := .regular, path := [.normal "package.cfg"],
         content := "[package]\nname = n\nversion = 1\n".toList }] =
      .error (.unpack .invalidEntryPath)
    ∧ ∃ r, PackageRecipe.fromStr "[package]\nname = n\nversion = 1\n".toList = .ok r :=
  ⟨rfl, ⟨_, rfl⟩⟩

/-- C10 (amended): both outer readers skip every non-regular entry before any
path check, ignore additional regular entries whose sanitized path is neither
`package.cfg` nor `data.tar.gz`, do not enforce the two-entries-in-order
layout (demonstrated by a scan with reversed order, an extra regular entry,
and a non-regular entry with an invalid path), and recipe-only reading
returns the parse of the first regular `package.cfg`; a regular entry with an
unsanitizable path, however, aborts the read. -/
theorem outer_container_tolerant :
    (∀ (e : OuterEntry) rest (rt db : Option RStr), isOuterRegular e.etype = false →
       readRecipeScan (e :: rest) = readRecipeScan rest ∧
       outerScan (e :: rest) rt db = outerScan rest rt db)
    ∧ (∀ (e : OuterEntry) rest (rel : List String) (rt db : Option RStr),
        isOuterRegular e.etype = true →
        sanitizeEntryPath e.path = .ok rel →
        rel ≠ ["package.cfg"] → rel ≠ ["data.tar.gz"] →
        readRecipeScan (e :: rest) = readRecipeScan rest ∧
        outerScan (e :: rest) rt db = outerScan rest rt db)
    ∧ (∀ (e : OuterEntry) rest, isOuterRegular e.etype = true →
        sanitizeEntryPath e.path = .ok ["package.cfg"] →
        readRecipeScan (e :: rest) =
          (match PackageRecipe.fromStr e.content with
           | .ok r => .ok r
           | .error err => .error (.parse err)))
    ∧ (∀ (c d junk : RStr),
        outerScan
          [{ etype := .regular, path := [.normal "data.tar.gz"], content := d },
           { etype := .directory, path := [.parentDir], content := junk },
           { etype := .regular, path := [.normal "extra.txt"], content := junk },
           { etype := .regular, path := [.normal "package.cfg"], content := c }]
          none none = .ok (some c, some d)) := by
  refine ⟨?_, ?_, ?_, ?_⟩
  · intro e rest rt db h
    constructor
    · simp [readRecipeScan, h]
    · simp [outerScan, h]
  · intro e rest rel rt db hreg hsan hcfg hdat
    constructor
    · simp [readRecipeScan, hreg, hsan, hcfg, hdat]
    · simp [outerScan, hreg, hsan, hcfg, hdat]
  · intro e rest hreg hsan
    simp [readRecipeScan, hreg, hsan]
  · intro c d junk
    rfl

/-- C10 amendment witness: the skip equations applied at concrete entries. -/
theorem outer_container_tolerant_witness :
    readRecipeScan
        [{ etype := .symlink, path := [.parentDir], content := [] }] =
      readRecipeScan [] ∧
    outerScan [{ etype := .symlink, path := [.parentDir], content := [] }]
        none none = outerScan [] none none :=
  outer_container_tolerant.1
    { etype := .symlink, path := [.parentDir], content := [] } [] none none rfl

/-- The claim-side bad-path condition of C1: a `..` component, a root
component, a Windows-style prefix, or a path that is empty after cleaning
(only `.` components, if any). -/
def badEntryPath (p : List PathComp) : Prop :=
  PathComp.parentDir ∈ p ∨ PathComp.rootDir ∈ p ∨
    (∃ s, PathComp.winPref s ∈ p) ∨ (∀ c ∈ p, c = PathComp.curDir)

theorem cleanComps_err_of_badcomp (p : List PathComp)
    (h : PathComp.parentDir ∈ p ∨ PathComp.rootDir ∈ p ∨ ∃ s, PathComp.winPref s ∈ p) :
    cleanComps p = .error .invalidEntryPath := by
  induction p with
  | nil => simp at h
  | cons c rest ih =>
    cases c with
    | normal s =>
      have hrest : PathComp.parentDir ∈ rest ∨ PathComp.rootDir ∈ rest ∨
          ∃ t, PathComp.winPref t ∈ rest := by
        simpa using h
      simp [cleanComps, ih hrest]
    | curDir =>
      have hrest : PathComp.parentDir ∈ rest ∨ PathComp.rootDir ∈ rest ∨
          ∃ t, PathComp.winPref t ∈ rest := by
        simpa using h
      simp [cleanComps, ih hrest]
    | parentDir => rfl
    | rootDir => rfl
    | winPref s => rfl

theorem cleanComps_ok_of_allCur (p : List PathComp)
    (h : ∀ c ∈ p, c = PathComp.curDir) : cleanComps p = .ok [] := by
  induction p with
  | nil => rfl
  | cons c rest ih =>
    have hc := h c (List.mem_cons_self _ _)
    subst hc
    exact ih (fun c hc => h c (List.mem_cons_of_mem _ hc))

theorem sanitize_error_of_bad {p : List PathComp} (h : badEntryPath p) :
    ∃ err, sanitizeEntryPath p = .error err := by
  rcases h with h | h | h | h
  · exact ⟨.invalidEntryPath, by simp [sanitizeEntryPath, cleanComps_err_of_badcomp p (Or.inl h)]⟩
  · exact ⟨.invalidEntryPath,
      by simp [sanitizeEntryPath, cleanComps_err_of_badcomp p (Or.inr (Or.inl h))]⟩
  · exact ⟨.invalidEntryPath,
      by simp [sanitizeEntryPath, cleanComps_err_of_badcomp p (Or.inr (Or.inr h))]⟩
  · exact ⟨.emptyEntryPath, by simp [sanitizeEntryPath, cleanComps_ok_of_allCur p h]⟩

theorem unpackRun_append (destRoot : AbsPath) (a b : List Entry) (st : UnpackState) :
    unpackRun destRoot (a ++ b) st =
      match unpackRun destRoot a st with
      | (st', none) => unpackRun destRoot b st'
      | (st', some err) => (st', some err) := by
  induction a generalizing st with
  | nil => simp [unpackRun]
  | cons e rest ih =>
    simp only [List.cons_append, unpackRun]
    cases unpackStep destRoot st e with
    | error err => rfl
    | ok st' => exact ih st'

/-- C1: a processed (non-metadata) entry whose path has a `..` component, a
root or Windows prefix, or cleans to empty, makes the unpack loop stop with
an error at that entry: the state (filesystem, session symlinks, installed
list) stays exactly what the prefix of the archive produced, and no later
entry is materialized. -/
theorem unpack_rejects_bad_paths (destRoot : AbsPath) (pre post : List Entry)
    (e : Entry) (fs : Fs) (st1 : UnpackState)
    (hmeta : isMetaHeader e.etype = false)
    (hbad : badEntryPath e.path)
    (hpre : unpackRun destRoot pre { fs := fs, created := [], installed := [] } =
      (st1, none)) :
    ∃ err, unpackRun destRoot (pre ++ e :: post)
        { fs := fs, created := [], installed := [] } = (st1, some err) := by
  obtain ⟨err, herr⟩ := sanitize_error_of_bad hbad
  refine ⟨err, ?_⟩
  rw [unpackRun_append, hpre]
  simp only [unpackRun, unpackStep, hmeta, herr, Bool.false_eq_true, if_false]

/-- C1 witness: a good entry, then a `..` entry, then another good entry; the
run fails having materialized only the first. -/
theorem unpack_rejects_bad_paths_witness :
    ∃ err, unpackRun ["tmp"]
        ([{ etype := .regular, path := [.normal "a.txt"], linkName := none }] ++
          { etype := .regular, path := [.parentDir, .normal "x"], linkName := none } ::
          [{ etype := .regular, path := [.normal "b.txt"], linkName := none }])
        { fs := [], created := [], installed := [] } =
      ({ fs := [(["tmp", "a.txt"], .file), (["tmp"], .dir)], created := [],
         installed := [["tmp", "a.txt"]] }, some err) :=
  unpack_rejects_bad_paths ["tmp"]
    [{ etype := .regular, path := [.normal "a.txt"], linkName := none }]
    [{ etype := .regular, path := [.normal "b.txt"], linkName := none }]
    { etype := .regular, path := [.parentDir, .normal "x"], linkName := none }
    [] _ rfl (Or.inl (by decide)) (by decide)

/-- The claim-side condition of C2: no strict ancestor of the destination
below the unpack root is a session-created symlink, and — unless the root is
`/` — none is an on-disk symlink either. -/
def parentsSafeSpec (destRoot : AbsPath) (rel : List String)
    (created : List AbsPath) (fs : Fs) : Prop :=
  ∀ i, 1 ≤ i → i < rel.length →
    (destRoot ++ rel.take i) ∉ created ∧
    (destRoot ≠ [] → isSymlinkNode (fs.lookup (destRoot ++ rel.take i)) = false)

theorem symlinkWalk_ok_iff (destRoot : AbsPath) (created : List AbsPath) (fs : Fs)
    (comps : List String) :
    ∀ current : AbsPath,
    (symlinkWalk destRoot created fs current comps = .ok () ↔
      ∀ j, j < comps.length →
        (current ++ comps.take (j+1)) ∉ created ∧
        (destRoot ≠ [] →
          isSymlinkNode (fs.lookup (current ++ comps.take (j+1))) = false)) := by
  induction comps with
  | nil => intro current; simp [symlinkWalk]
  | cons c rest ih =>
    intro current
    have step : symlinkWalk destRoot created fs current (c :: rest) = .ok () ↔
        ((current ++ [c]) ∉ created ∧
         (destRoot ≠ [] → isSymlinkNode (fs.lookup (current ++ [c])) = false) ∧
         symlinkWalk destRoot created fs (current ++ [c]) rest = .ok ()) := by
      have hunf : symlinkWalk destRoot created fs current (c :: rest) =
          (if (current ++ [c]) ∈ created then
            .error (.sessionSymlinkParent (current ++ [c]))
          else if destRoot ≠ ([] : AbsPath) ∧
              isSymlinkNode (fs.lookup (current ++ [c])) = true then
            .error (.onDiskSymlinkParent (current ++ [c]))
          else symlinkWalk destRoot created fs (current ++ [c]) rest) := rfl
      rw [hunf]
      by_cases hc : (current ++ [c]) ∈ created
      · simp [hc]
      · by_cases hr : destRoot = ([] : AbsPath)
        · simp [hc, hr]
        · by_cases hs : isSymlinkNode (fs.lookup (current ++ [c])) = true
          · simp [hc, hr, hs]
          · simp only [Bool.not_eq_true] at hs
            simp [hc, hr, hs]
    rw [step, ih (current ++ [c])]
    constructor
    · rintro ⟨h1, h2, h3⟩ j hj
      match j with
      | 0 => simpa using ⟨h1, h2⟩
      | j' + 1 =>
        have hj' : j' < rest.length := by simpa using hj
        have h' := h3 j' hj'
        rw [List.take_succ_cons, List.append_cons]
        exact h'
    · intro h
      refine ⟨by simpa using (h 0 (by simp)).1,
        fun hr => by simpa using (h 0 (by simp)).2 hr, ?_⟩
      intro j' hj'
      have h' := h (j' + 1) (by simpa using hj')
      rw [List.take_succ_cons, List.append_cons] at h'
      exact h'

/-- C2: for an entry materialized at `destRoot ++ rel`, the parent check of
`ensure_no_symlink_parents` passes exactly when every strict ancestor below
the root is free of session-created symlinks and — unless the root is `/`,
where pre-existing disk state is trusted — free of on-disk symlinks; and when
the check fails, the unpack step for that entry fails. -/
theorem parent_symlink_guard (destRoot : AbsPath) (rel : List String)
    (created : List AbsPath) (fs : Fs) (hrel : rel ≠ []) :
    (ensureNoSymlinkParents destRoot (destRoot ++ rel) created fs = .ok () ↔
      parentsSafeSpec destRoot rel created fs)
    ∧ (∀ (st : UnpackState) (e : Entry), st.created = created → st.fs = fs →
        isMetaHeader e.etype = false → sanitizeEntryPath e.path = .ok rel →
        ¬ parentsSafeSpec destRoot rel created fs →
        ∃ err, unpackStep destRoot st e = .error err) := by
  have hne : destRoot ++ rel ≠ [] := by
    simp [List.append_eq_nil, hrel]
  have hdrop : (destRoot ++ rel).dropLast = destRoot ++ rel.dropLast :=
    List.dropLast_append_of_ne_nil destRoot hrel
  have hstrip : stripPref destRoot (destRoot ++ rel.dropLast) = some rel.dropLast := by
    rw [stripPref, if_pos (List.isPrefixOf_iff_prefix.mpr (List.prefix_append _ _))]
    rw [List.drop_left]
  have hens : ensureNoSymlinkParents destRoot (destRoot ++ rel) created fs =
      symlinkWalk destRoot created fs destRoot rel.dropLast := by
    rw [ensureNoSymlinkParents, if_neg (by simpa [List.isEmpty_iff] using hne)]
    rw [hdrop]
    show (match stripPref destRoot (destRoot ++ rel.dropLast) with
      | none => Except.error UnpackErr.escapesRoot
      | some relParent => symlinkWalk destRoot created fs destRoot relParent) =
      symlinkWalk destRoot created fs destRoot rel.dropLast
    rw [hstrip]
  have hiff : ensureNoSymlinkParents destRoot (destRoot ++ rel) created fs = .ok () ↔
      parentsSafeSpec destRoot rel created fs := by
    rw [hens, symlinkWalk_ok_iff destRoot created fs rel.dropLast destRoot]
    constructor
    · intro h i h1 h2
      have hj : i - 1 < rel.dropLast.length := by
        rw [List.length_dropLast]; omega
      have := h (i - 1) hj
      have htake : rel.dropLast.take (i - 1 + 1) = rel.take i := by
        rw [List.dropLast_eq_take, List.take_take]
        congr 1
        omega
      rw [htake] at this
      exact this
    · intro h j hj
      rw [List.length_dropLast] at hj
      have htake : rel.dropLast.take (j + 1) = rel.take (j + 1) := by
        rw [List.dropLast_eq_take, List.take_take]
        congr 1
        omega
      rw [htake]
      exact h (j + 1) (by omega) (by omega)
  refine ⟨hiff, ?_⟩
  intro st e hcr hfs hmeta hsan hbad
  cases hE : ensureNoSymlinkParents destRoot (destRoot ++ rel) created fs with
  | ok u => exact absurd (hiff.mp (by rw [hE])) hbad
  | error err =>
    refine ⟨err, ?_⟩
    rw [unpackStep, if_neg (by simp [hmeta]), hsan]
    rw [hcr, hfs] at *
    simp only [hE]

/-- C2 witness: under root `/`, an on-disk symlink parent is tolerated but a
session-created symlink parent is not. -/
theorem parent_symlink_guard_witness :
    (ensureNoSymlinkParents [] ([] ++ ["a", "b"]) [["a"]]
        [(["a"], .symlink [.normal "x"])] = .ok () ↔
      parentsSafeSpec [] ["a", "b"] [["a"]] [(["a"], .symlink [.normal "x"])])
    ∧ (∀ (st : UnpackState) (e : Entry),
        st.created = [["a"]] → st.fs = [(["a"], .symlink [.normal "x"])] →
        isMetaHeader e.etype = false → sanitizeEntryPath e.path = .ok ["a", "b"] →
        ¬ parentsSafeSpec [] ["a", "b"] [["a"]] [(["a"], .symlink [.normal "x"])] →
        ∃ err, unpackStep [] st e = .error err) :=
  parent_symlink_guard [] ["a", "b"] [["a"]]
    [(["a"], .symlink [.normal "x"])] (by decide)

theorem removeFileStep_files_subset (removeOk : RStr → Bool) (fs : RmFs)
    (p q : RStr) (h : q ∈ (removeFileStep removeOk fs p).files) : q ∈ fs.files := by
  rw [removeFileStep] at h
  split at h
  · split at h
    · simp only [List.mem_filter] at h
      exact h.1
    · exact h
  · exact h

theorem removeFileStep_removes (removeOk : RStr → Bool) (fs : RmFs) (p : RStr)
    (hok : removeOk p = true) : p ∉ (removeFileStep removeOk fs p).files := by
  rw [removeFileStep]
  by_cases hex : p ∈ fs.files ∨ p ∈ fs.dirs
  · rw [if_pos hex]
    by_cases hf : p ∈ fs.files
    · rw [if_pos ⟨hf, hok⟩]
      simp
    · rw [if_neg (fun hc => hf hc.1)]
      exact hf
  · rw [if_neg hex]
    exact fun hc => hex (Or.inl hc)

theorem foldl_removeFileStep_preserves_absent (removeOk : RStr → Bool)
    (l : List RStr) (fs : RmFs) (p : RStr) (h : p ∉ fs.files) :
    p ∉ (l.foldl (removeFileStep removeOk) fs).files := by
  induction l generalizing fs with
  | nil => exact h
  | cons x rest ih =>
    exact ih (removeFileStep removeOk fs x)
      (fun hc => h (removeFileStep_files_subset removeOk fs x p hc))

theorem foldl_removeFileStep_removes (removeOk : RStr → Bool)
    (l : List RStr) (fs : RmFs) (p : RStr) (hp : p ∈ l) (hok : removeOk p = true) :
    p ∉ (l.foldl (removeFileStep removeOk) fs).files := by
  induction l generalizing fs with
  | nil => simp at hp
  | cons x rest ih =>
    rcases List.mem_cons.mp hp with hpx | hpm
    · subst hpx
      exact foldl_removeFileStep_preserves_absent removeOk rest _ p
        (removeFileStep_removes removeOk fs p hok)
    · exact ih (removeFileStep removeOk fs x) hpm

theorem pruneDirStep_files (fs : RmFs) (d : RStr) :
    (pruneDirStep fs d).files = fs.files := by
  rw [pruneDirStep]
  split
  · rfl
  · rfl

theorem foldl_pruneDirStep_files (dirs : List RStr) (fs : RmFs) :
    (dirs.foldl pruneDirStep fs).files = fs.files := by
  induction dirs generalizing fs with
  | nil => rfl
  | cons d rest ih => rw [List.foldl_cons, ih, pruneDirStep_files]

/-- C8: removal deletes the database entry in every case (even when some file
deletions fail — the per-file oracle `removeOk` models `fs::remove_file`
failures, which are only logged); every installed file whose deletion can
succeed is gone afterwards (in particular, a pre-deleted file does not block
removal); the pruning sequence is exactly the set of parent directories of
the installed files, without duplicates, sorted by descending path length;
and a directory is removed only when it exists and is empty at its turn. -/
theorem remove_package_spec (db : Db) (name : RStr) (removeOk : RStr → Bool)
    (fs : RmFs) (recipe : PackageRecipe)
    (hget : getPackageMetadata db name = some recipe) :
    getPackageMetadata (remPackageMetadata db name removeOk fs).1 name = none
    ∧ (∀ p ∈ recipe.install.installedFiles, removeOk p = true →
        p ∉ (remPackageMetadata db name removeOk fs).2.files)
    ∧ (pruneList recipe.install.installedFiles).Pairwise
        (fun a b => b.length ≤ a.length)
    ∧ (∀ d, d ∈ pruneList recipe.install.installedFiles ↔
        ∃ p ∈ recipe.install.installedFiles, rustParent p = some d)
    ∧ (pruneList recipe.install.installedFiles).Nodup
    ∧ (∀ (fsx : RmFs) (d : RStr), (d ∉ fsx.dirs ∨ dirIsEmpty fsx d = false) →
        pruneDirStep fsx d = fsx) := by
  have hr : ∀ a b : RStr, (fun a b : RStr => b.length ≤ a.length) a b ∨
      (fun a b : RStr => b.length ≤ a.length) b a := by
    intro a b
    simp only
    omega
  haveI : IsTotal RStr (fun a b : RStr => b.length ≤ a.length) := ⟨hr⟩
  haveI : IsTrans RStr (fun a b : RStr => b.length ≤ a.length) := by
    refine ⟨fun a b c hab hbc => ?_⟩
    simp only at hab hbc ⊢
    omega
  refine ⟨?_, ?_, ?_, ?_, ?_, ?_⟩
  · rw [remPackageMetadata, hget]
    simp only [getPackageMetadata]
    rw [List.find?_eq_none.mpr]
    intro x hx
    rcases List.mem_filter.mp hx with ⟨_, hxname⟩
    simpa using hxname
  · intro p hp hok
    rw [remPackageMetadata, hget]
    simp only
    rw [foldl_pruneDirStep_files]
    exact foldl_removeFileStep_removes removeOk _ fs p hp hok
  · exact List.sorted_insertionSort _ _
  · intro d
    rw [pruneList, (List.perm_insertionSort _ _).mem_iff, List.mem_dedup,
      List.mem_filterMap]
  · exact (List.perm_insertionSort _ _).nodup_iff.mpr (List.nodup_dedup _)
  · intro fsx d hcond
    rw [pruneDirStep, if_neg]
    rintro ⟨hd, hemp⟩
    rcases hcond with hc | hc
    · exact hc hd
    · rw [hemp] at hc
      simp at hc

/-- C8 witness: a two-file manifest with one file pre-deleted and the other
failing to delete; the store entry still goes away. -/
theorem remove_package_spec_witness :
    getPackageMetadata
        (remPackageMetadata
          [("demo".toList,
            { version := ['1'], architectures := [], dependencies := [],
              buildCommands := [], installParams := [],
              installedFiles := "/usr/bin/demo;/usr/share/demo/readme".toList })]
          "demo".toList (fun _ => false)
          { files := ["/usr/share/demo/readme".toList], dirs := ["/usr/share/demo".toList] }).1
        "demo".toList = none
    ∧ (∀ p ∈ (parseListOn ';' "/usr/bin/demo;/usr/share/demo/readme".toList),
        (fun _ : RStr => false) p = true →
        p ∉ (remPackageMetadata
          [("demo".toList,
            { version := ['1'], architectures := [], dependencies := [],
              buildCommands := [], installParams := [],
              installedFiles := "/usr/bin/demo;/usr/share/demo/readme".toList })]
          "demo".toList (fun _ => false)
          { files := ["/usr/share/demo/readme".toList], dirs := ["/usr/share/demo".toList] }).2.files)
    ∧ (pruneList (parseListOn ';' "/usr/bin/demo;/usr/share/demo/readme".toList)).Pairwise
        (fun a b => b.length ≤ a.length)
    ∧ (∀ d, d ∈ pruneList (parseListOn ';' "/usr/bin/demo;/usr/share/demo/readme".toList) ↔
        ∃ p ∈ parseListOn ';' "/usr/bin/demo;/usr/share/demo/readme".toList,
          rustParent p = some d)
    ∧ (pruneList (parseListOn ';' "/usr/bin/demo;/usr/share/demo/readme".toList)).Nodup
    ∧ (∀ (fsx : RmFs) (d : RStr), (d ∉ fsx.dirs ∨ dirIsEmpty fsx d = false) →
        pruneDirStep fsx d = fsx) :=
  remove_package_spec
    [("demo".toList,
      { version := ['1'], architectures := [], dependencies := [],
        buildCommands := [], installParams := [],
        installedFiles := "/usr/bin/demo;/usr/share/demo/readme".toList })]
    "demo".toList (fun _ => false)
    { files := ["/usr/share/demo/readme".toList], dirs := ["/usr/share/demo".toList] }
    _ rfl

/-- C5 counterexample: with every field non-empty but an architectures
element containing a comma (`"x,y"`), rendering and re-parsing splits the
element, so the fields are not preserved bytewise. -/
theorem recipe_roundtrip_comma_cex :
    PackageRecipe.fromStr (renderCfg
      { package := { name := ['n'], version := ['1'], architectures := [['x', ',', 'y']] },
        build := { dependencies := [['d']], commands := [['c']] },
        install := { installParams := [['p']], installedFiles := [] } }) =
      .ok { package := { name := ['n'], version := ['1'],
                         architectures := [['x'], ['y']] },
            build := { dependencies := [['d']], commands := [['c']] },
            install := { installParams := [['p']], installedFiles := [] } }
    ∧ ([['x'], ['y']] : List RStr) ≠ [['x', ',', 'y']] := by
  constructor
  · rfl
  · decide

/-- C5 (amended): for every recipe whose name and version are clean
(non-empty, trimmed, single-line) and whose architectures, dependencies,
build commands and install params are non-empty lists of clean items free of
their separator (`,` resp. `;`), rendering to `package.cfg` and parsing back
preserves all six fields bytewise (the `installed_files` field is not part of
the rendered file and parses back empty). -/
theorem recipe_render_parse_roundtrip (r : PackageRecipe)
    (hname : cleanVal r.package.name) (hver : cleanVal r.package.version)
    (harch : cleanItems ',' r.package.architectures)
    (hdep : cleanItems ',' r.build.dependencies)
    (hcmd : cleanItems ';' r.build.commands)
    (hpar : cleanItems ',' r.install.installParams) :
    PackageRecipe.fromStr (renderCfg r) =
      .ok { package := r.package, build := r.build,
            install := { installParams := r.install.installParams,
                         installedFiles := [] } } := by
  obtain ⟨⟨N, V, AS⟩, ⟨DS, CS⟩, ⟨PS, FS⟩⟩ := r
  have hNne : N ≠ [] := hname.1
  have hNtrim : trim N = N := hname.2.1
  have hNnl : '\n' ∉ N := hname.2.2
  have hVne : V ≠ [] := hver.1
  have hVtrim : trim V = V := hver.2.1
  have hVnl : '\n' ∉ V := hver.2.2
  have hASne : AS ≠ [] := harch.1
  have hAS : ∀ e ∈ AS, e ≠ [] ∧ trim e = e ∧ '\n' ∉ e ∧ ',' ∉ e := harch.2
  have hDSne : DS ≠ [] := hdep.1
  have hDS : ∀ e ∈ DS, e ≠ [] ∧ trim e = e ∧ '\n' ∉ e ∧ ',' ∉ e := hdep.2
  have hCSne : CS ≠ [] := hcmd.1
  have hCS : ∀ e ∈ CS, e ≠ [] ∧ trim e = e ∧ '\n' ∉ e ∧ ';' ∉ e := hcmd.2
  have hPSne : PS ≠ [] := hpar.1
  have hPS : ∀ e ∈ PS, e ≠ [] ∧ trim e = e ∧ '\n' ∉ e ∧ ',' ∉ e := hpar.2
  have hJA := joinSep_clean ',' (by decide) AS hASne
    (fun e he => ⟨(hAS e he).1, (hAS e he).2.1, (hAS e he).2.2.1⟩)
  have hJD := joinSep_clean ',' (by decide) DS hDSne
    (fun e he => ⟨(hDS e he).1, (hDS e he).2.1, (hDS e he).2.2.1⟩)
  have hJC := joinSep_clean ';' (by decide) CS hCSne
    (fun e he => ⟨(hCS e he).1, (hCS e he).2.1, (hCS e he).2.2.1⟩)
  have hJP := joinSep_clean ',' (by decide) PS hPSne
    (fun e he => ⟨(hPS e he).1, (hPS e he).2.1, (hPS e he).2.2.1⟩)
  rw [show ([',', ' '] : RStr) = ", ".toList from rfl] at hJA hJD hJP
  rw [show ([';', ' '] : RStr) = "; ".toList from rfl] at hJC
  have hAempty : AS.isEmpty = false := by simp [List.isEmpty_iff, hASne]
  have hDempty : DS.isEmpty = false := by simp [List.isEmpty_iff, hDSne]
  have hCempty : CS.isEmpty = false := by simp [List.isEmpty_iff, hCSne]
  have hPempty : PS.isEmpty = false := by simp [List.isEmpty_iff, hPSne]
  have hlines : rustLines (renderCfg
      { package := { name := N, version := V, architectures := AS },
        build := { dependencies := DS, commands := CS },
        install := { installParams := PS, installedFiles := FS } }) =
      ["[package]".toList, "name = ".toList ++ N, "version = ".toList ++ V,
       "architectures = ".toList ++ joinSep ", ".toList AS, [],
       "[build]".toList, "dependencies = ".toList ++ joinSep ", ".toList DS,
       "commands = ".toList ++ joinSep "; ".toList CS, [],
       "[install]".toList,
       "install_params = ".toList ++ joinSep ", ".toList PS] := by
    simp only [renderCfg, hAempty, hDempty, hCempty, hPempty, Bool.false_eq_true,
      if_false]
    rw [show "[package]\n".toList = "[package]".toList ++ ['\n'] from rfl,
        show "\n[build]\n".toList = ['\n'] ++ ("[build]".toList ++ ['\n']) from rfl,
        show "\n[install]\n".toList = ['\n'] ++ ("[install]".toList ++ ['\n']) from rfl]
    simp only [List.append_assoc, List.singleton_append, List.cons_append,
      List.nil_append]
    rw [rustLines_newline "[package]".toList _ (by decide)]
    rw [rustLines_newline2 "name = ".toList N _ (by decide) hNnl]
    rw [rustLines_newline2 "version = ".toList V _ (by decide) hVnl]
    rw [rustLines_newline2 "architectures = ".toList (joinSep ", ".toList AS) _
      (by decide) hJA.2.2]
    rw [rustLines_empty_line]
    rw [rustLines_newline "[build]".toList _ (by decide)]
    rw [rustLines_newline2 "dependencies = ".toList (joinSep ", ".toList DS) _
      (by decide) hJD.2.2]
    rw [rustLines_newline2 "commands = ".toList (joinSep "; ".toList CS) _
      (by decide) hJC.2.2]
    rw [rustLines_empty_line]
    rw [rustLines_newline "[install]".toList _ (by decide)]
    rw [rustLines_newline2 "install_params = ".toList (joinSep ", ".toList PS) _
      (by decide) hJP.2.2]
    rw [show rustLines ([] : RStr) = [] from rfl]
    rw [show stripCr "[package]".toList = "[package]".toList from by decide,
        show stripCr "[build]".toList = "[build]".toList from by decide,
        show stripCr "[install]".toList = "[install]".toList from by decide]
    rw [stripCr_of_trimR (trim_parts hNtrim).2 hNne,
        stripCr_of_trimR (trim_parts hVtrim).2 hVne,
        stripCr_of_trimR (trim_parts hJA.2.1).2 hJA.1,
        stripCr_of_trimR (trim_parts hJD.2.1).2 hJD.1,
        stripCr_of_trimR (trim_parts hJC.2.1).2 hJC.1,
        stripCr_of_trimR (trim_parts hJP.2.1).2 hJP.1]
  simp only [PackageRecipe.fromStr, hlines, List.foldl_cons, List.foldl_nil]
  rw [step_pkg_header]
  rw [step_name _ N hNtrim hNne]
  rw [step_version _ V hVtrim hVne]
  rw [step_architectures _ _ hJA.2.1 hJA.1]
  rw [step_empty]
  rw [step_build_header]
  rw [step_dependencies _ _ hJD.2.1 hJD.1]
  rw [step_commands _ _ hJC.2.1 hJC.1]
  rw [step_empty]
  rw [step_install_header]
  rw [step_install_params _ _ hJP.2.1 hJP.1]
  rw [show (", ".toList : RStr) = [',', ' '] from rfl,
      show ("; ".toList : RStr) = [';', ' '] from rfl]
  rw [parseListOn_join ',' (by decide) AS hASne
    (fun e he => ⟨(hAS e he).1, (hAS e he).2.1, (hAS e he).2.2.2⟩)]
  rw [parseListOn_join ',' (by decide) DS hDSne
    (fun e he => ⟨(hDS e he).1, (hDS e he).2.1, (hDS e he).2.2.2⟩)]
  rw [parseListOn_join ';' (by decide) CS hCSne
    (fun e he => ⟨(hCS e he).1, (hCS e he).2.1, (hCS e he).2.2.2⟩)]
  rw [parseListOn_join ',' (by decide) PS hPSne
    (fun e he => ⟨(hPS e he).1, (hPS e he).2.1, (hPS e he).2.2.2⟩)]
  rw [if_neg (by simp [List.isEmpty_iff, hNne]), if_neg (by simp [List.isEmpty_iff, hVne])]
  rfl

/-- C5 amendment witness: a concrete clean recipe round-trips. -/
theorem recipe_render_parse_roundtrip_witness :
    PackageRecipe.fromStr (renderCfg
      { package := { name := "demo".toList, version := "1.2".toList,
                     architectures := ["x86_64".toList, "arm64".toList] },
        build := { dependencies := ["a".toList, "b".toList],
                   commands := ["make".toList, "make install".toList] },
        install := { installParams := ["p".toList], installedFiles := [] } }) =
      .ok { package := { name := "demo".toList, version := "1.2".toList,
                         architectures := ["x86_64".toList, "arm64".toList] },
            build := { dependencies := ["a".toList, "b".toList],
                       commands := ["make".toList, "make install".toList] },
            install := { installParams := ["p".toList], installedFiles := [] } } :=
  recipe_render_parse_roundtrip
    { package := { name := "demo".toList, version := "1.2".toList,
                   architectures := ["x86_64".toList, "arm64".toList] },
      build := { dependencies := ["a".toList, "b".toList],
                 commands := ["make".toList, "make install".toList] },
      install := { installParams := ["p".toList], installedFiles := [] } }
    (by decide) (by decide) (by decide) (by decide) (by decide) (by decide)

end Nxpkg
